import Mathlib

/-!
# Klaverjassen compare: the comparative view builder

A shallow embedding of `gameResult.Renderable` (webserver.go, lines 43-97) and
of the pieces it uses, followed by theorems about what the embedding computes.

Conventions of the embedding.

* A Go fixed-size array `[n]T` is a function `Fin n → T`.
* A Go `int` is an `Int`; every arithmetic operation of the source is followed
  by `wrap64`, the reduction to the signed 64-bit range.
* The operator `%` of Go truncates towards zero: `goRem`.
* An index expression whose bound the loop condition or a constant guarantees
  (`r.Rounds[i]`, `r.Rounds[i][j]`, `c[0]`) is a function application.  Every
  other index is checked at run time by Go and panics when it is out of range:
  `goIndex` and `goStore` return `none` there, and `Renderable` returns
  `Option renderableGame`, `none` standing for the panic.
* A Go `map[string]int` is an association list with distinct keys, in
  insertion order; `len` of the map is the length of the list.
* The fields of type `int` of a stored game hold values of the 64-bit range.
  The record type does not enforce it; the sample games below respect it.
-/

namespace Klaverjassen

/-! ## Machine integers and checked indexing -/

/-- Reduction of a mathematical integer to the range of the 64-bit `int` of Go. -/
def wrap64 (x : Int) : Int :=
  (x + 9223372036854775808) % 18446744073709551616 - 9223372036854775808

/-- The remainder operator `%` of Go, which truncates towards zero. -/
def goRem (a b : Int) : Int := Int.tmod a b

/-- Run-time checked read `a[i]` of a fixed-size array; `none` is the panic. -/
def goIndex {α : Type} {n : Nat} (a : Fin n → α) (i : Int) : Option α :=
  if h : 0 ≤ i ∧ i < (n : Int) then some (a ⟨i.toNat, by omega⟩) else none

/-- Run-time checked write `a[i] = v` into a fixed-size array; `none` is the panic. -/
def goStore {α : Type} {n : Nat} (a : Fin n → α) (i : Int) (v : α) : Option (Fin n → α) :=
  if h : 0 ≤ i ∧ i < (n : Int) then some (Function.update a ⟨i.toNat, by omega⟩ v) else none

/-! ## Go maps from strings to counters -/

/-- The statement `m[k]++` on a `map[string]int`: a missing key counts as zero.
The counter is not wrapped: it is at most four times the number of games in a
slice, far below `2^63`. -/
def mapIncr : List (String × Int) → String → List (String × Int)
  | [], k => [(k, 1)]
  | (k', v) :: m, k => if k' = k then (k', v + 1) :: m else (k', v) :: mapIncr m k

/-- The expression `m[k]` on a `map[string]int`: a missing key reads as zero. -/
def mapGet : List (String × Int) → String → Int
  | [], _ => 0
  | (k', v) :: m, k => if k' = k then v else mapGet m k

/-! ## Data types (webserver.go, lines 32-41 and 99-168) -/

/-- The type `suit` of the source: a string. -/
abbrev suit := String

/-- The type `cardValue` of the source: a string. -/
abbrev cardValue := String

/-- The stored record of one game. -/
structure gameResult where
  Players : Fin 4 → String
  StartingPlayer : Int
  Trump : String
  Scores : Fin 2 → Int
  Glory : Fin 2 → Int
  Rounds : Fin 8 → Fin 4 → Fin 2 → String
  RoundWinners : Fin 8 → Int
  RoundGlory : Fin 8 → Int

/-- One card of the output. -/
structure playedCard where
  Suit : suit
  Value : cardValue
  Winner : Bool
  Different : Bool
deriving DecidableEq

/-- One round of the output. -/
structure round where
  StartingPlayer : String
  Cards : Fin 4 → playedCard
  Glory : Int

/-- The display structure of one game. -/
structure renderableGame where
  UniquePlayers : List String
  Players : Fin 4 → String
  StartingPlayer : String
  Trump : suit
  PlayingTeam : Fin 2 → String
  OpposingTeam : Fin 2 → String
  PlayingTeamScore : Int
  OpposingTeamScore : Int
  PlayingTeamScoreExclGlory : Int
  OpposingTeamScoreExclGlory : Int
  PlayingTeamGlory : Int
  OpposingTeamGlory : Int
  Rounds : Fin 8 → round

/-- The zero value of `playedCard`. -/
def zeroCard : playedCard := { Suit := "", Value := "", Winner := false, Different := false }

/-- The zero value of `round`. -/
def zeroRound : round := { StartingPlayer := "", Cards := fun _ => zeroCard, Glory := 0 }

/-! ## Renderable (webserver.go, lines 43-97) -/

/-- The values of the loop `for i := 0; 8 > i; i++`, in order. -/
def roundIndices : List (Fin 8) := [0, 1, 2, 3, 4, 5, 6, 7]

/-- The values of the loop `for j := 0; 4 > j; j++`, in order. -/
def seatIndices : List (Fin 4) := [0, 1, 2, 3]

/-- The elements visited by `range g.Players`, in order. -/
def playersOf (g : gameResult) : List String :=
  [g.Players 0, g.Players 1, g.Players 2, g.Players 3]

/-- Lines 44-49: the map `playerOccurrences` after both loops. -/
def playerOccurrences (allGames : List gameResult) : List (String × Int) :=
  allGames.foldl (fun m og => (playersOf og).foldl mapIncr m) []

/-- Lines 50-55: the slice `uniquePlayers` after the loop. -/
def uniquePlayers (r : gameResult) (occ : List (String × Int)) : List String :=
  (playersOf r).foldl (fun u p => if mapGet occ p = 1 then u ++ [p] else u) []

/-- Lines 71-74 and 82-85: the seat leading round `i` of game `g`,
`g.StartingPlayer` for the first round and `g.RoundWinners[i-1]` afterwards. -/
def roundLeader (g : gameResult) (i : Fin 8) : Int :=
  if h : 0 < i.val then g.RoundWinners ⟨i.val - 1, by omega⟩ else g.StartingPlayer

/-- Line 86: the index expression `(j+sp-ogsp+4)%4`. -/
def alignIndex (j sp ogsp : Int) : Int :=
  goRem (wrap64 (wrap64 (wrap64 (j + sp) - ogsp) + 4)) 4

/-- Lines 88 and 91: the index expression `(j+sp)%4`. -/
def displayIndex (j sp : Int) : Int := goRem (wrap64 (j + sp)) 4

/-- Line 86: the map key read from game `og`, the value and the suit of the
card at the aligned index, concatenated. -/
def choiceKey (og : gameResult) (i : Fin 8) (j : Fin 4) (sp : Int) : Option String := do
  let c ← goIndex (og.Rounds i) (alignIndex j.val sp (roundLeader og i))
  some (c 0 ++ c 1)

/-- Lines 80-87: the map `choices` after the loop over `allGames`. -/
def choices (allGames : List gameResult) (i : Fin 8) (j : Fin 4) (sp : Int) :
    Option (List (String × Int)) :=
  allGames.foldlM (fun m og => do
    let k ← choiceKey og i j sp
    some (mapIncr m k)) []

/-- Lines 80-93: one iteration of the loop over `j`, on the array
`ret.Rounds[i].Cards`. -/
def cardStep (r : gameResult) (allGames : List gameResult) (i : Fin 8) (sp : Int)
    (cards : Fin 4 → playedCard) (j : Fin 4) : Option (Fin 4 → playedCard) := do
  let ch ← choices allGames i j sp
  goStore cards (displayIndex j.val sp)
    { Value := r.Rounds i j 0
      Suit := r.Rounds i j 1
      Winner := decide (r.RoundWinners i = displayIndex j.val sp)
      Different := decide (ch.length ≠ 1) }

/-- Lines 71-94: the value of `ret.Rounds[i]` at the end of iteration `i` of
the outer loop. The iteration reads nothing of `ret` and writes only
`ret.Rounds[i]`. -/
def renderRound (r : gameResult) (allGames : List gameResult) (i : Fin 8) : Option round := do
  let sp := roundLeader r i
  let name ← goIndex r.Players sp
  let cards ← seatIndices.foldlM (cardStep r allGames i sp) (fun _ => zeroCard)
  some { StartingPlayer := name, Glory := r.RoundGlory i, Cards := cards }

/-- Lines 70-95: one iteration of the loop over `i`, on the array `ret.Rounds`. -/
def roundStep (r : gameResult) (allGames : List gameResult)
    (rounds : Fin 8 → round) (i : Fin 8) : Option (Fin 8 → round) := do
  let rd ← renderRound r allGames i
  some (Function.update rounds i rd)

/-- The method `gameResult.Renderable`; `none` means that the call panics. -/
def Renderable (r : gameResult) (allGames : List gameResult) : Option renderableGame := do
  let occ := playerOccurrences allGames
  let up := uniquePlayers r occ
  let startingPlayer ← goIndex r.Players r.StartingPlayer
  let partner ← goIndex r.Players (goRem (wrap64 (r.StartingPlayer + 2)) 4)
  let opp0 ← goIndex r.Players (goRem (wrap64 (r.StartingPlayer + 1)) 4)
  let opp1 ← goIndex r.Players (goRem (wrap64 (r.StartingPlayer + 3)) 4)
  let rounds ← roundIndices.foldlM (roundStep r allGames) (fun _ => zeroRound)
  some
    { Players := r.Players
      UniquePlayers := up
      StartingPlayer := startingPlayer
      Trump := r.Trump
      PlayingTeam := ![startingPlayer, partner]
      OpposingTeam := ![opp0, opp1]
      PlayingTeamScore := r.Scores 0
      OpposingTeamScore := r.Scores 1
      PlayingTeamGlory := r.Glory 0
      OpposingTeamGlory := r.Glory 1
      PlayingTeamScoreExclGlory := wrap64 (r.Scores 0 - r.Glory 0)
      OpposingTeamScoreExclGlory := wrap64 (r.Scores 1 - r.Glory 1)
      Rounds := rounds }

/-! ## Vocabulary of the statements -/

/-- The seat `x mod 4`, for a mathematical integer `x`. -/
def seatOf (x : Int) : Fin 4 := ⟨(x % 4).toNat, by omega⟩

/-- The key of a card: its value and its suit, concatenated (line 86). -/
def cardKey (c : Fin 2 → String) : String := c 0 ++ c 1

/-- The index read in game `b` for loop seat `s` of the target `a`, in round
`i`: the index expression of line 86 with both leaders filled in. -/
def alignSeat (a b : gameResult) (i : Fin 8) (s : Int) : Int :=
  alignIndex s (roundLeader a i) (roundLeader b i)

/-- A game whose starting player and round winners are all seats, 0 to 3. -/
def wellFormed (g : gameResult) : Prop :=
  (0 ≤ g.StartingPlayer ∧ g.StartingPlayer < 4) ∧
  ∀ i : Fin 8, 0 ≤ g.RoundWinners i ∧ g.RoundWinners i < 4

instance (g : gameResult) : Decidable (wellFormed g) := by
  unfold wellFormed; infer_instance

/-- The card values named in `cardValue.Unicode` (lines 119-135). -/
def standardValues : List String :=
  ["SEVEN", "EIGHT", "NINE", "TEN", "JACK", "QUEEN", "KING", "ACE"]

/-- The suits named in `suit.Unicode` (lines 102-110). -/
def standardSuits : List String := ["CLUBS", "SPADES", "DIAMONDS", "HEARTS"]

/-- A card whose value and suit are standard names. -/
def standardCard (c : Fin 2 → String) : Prop := c 0 ∈ standardValues ∧ c 1 ∈ standardSuits

instance (c : Fin 2 → String) : Decidable (standardCard c) := by
  unfold standardCard; infer_instance

/-- Two cards identical in value and in suit. -/
def sameCard (c d : Fin 2 → String) : Prop := c 0 = d 0 ∧ c 1 = d 1

instance (c d : Fin 2 → String) : Decidable (sameCard c d) := by
  unfold sameCard; infer_instance

/-- The number of seats, over all the games of a group, that carry the name `p`. -/
def occurrences (group : List gameResult) (p : String) : Nat :=
  (group.map (fun g => (playersOf g).count p)).sum

/-! ## Sample games -/

/-- A game with the given names, leaders and cards: `first` is played in round
0 and `later` in every other round. -/
def sampleGame (names : Fin 4 → String) (sp : Int) (winner : Int)
    (first later : Fin 4 → Fin 2 → String) : gameResult :=
  { Players := names
    StartingPlayer := sp
    Trump := "HEARTS"
    Scores := ![100, 62]
    Glory := ![20, 0]
    Rounds := fun i => if i = 0 then first else later
    RoundWinners := fun _ => winner
    RoundGlory := fun _ => 0 }

/-- Game A: seat 0 starts, seat 2 wins every round. -/
def gameA : gameResult :=
  sampleGame ![ "Alice", "Bob", "Carol", "Dave"] 0 2
    ![ ![ "SEVEN", "CLUBS"], ![ "EIGHT", "CLUBS"], ![ "NINE", "CLUBS"], ![ "TEN", "CLUBS"]]
    ![ ![ "JACK", "HEARTS"], ![ "SEVEN", "HEARTS"], ![ "ACE", "HEARTS"], ![ "EIGHT", "HEARTS"]]

/-- Game B: seat 0 starts, seat 1 wins every round. -/
def gameB : gameResult :=
  sampleGame ![ "Erin", "Bob", "Carol", "Dave"] 0 1
    ![ ![ "SEVEN", "CLUBS"], ![ "EIGHT", "SPADES"], ![ "NINE", "CLUBS"], ![ "TEN", "CLUBS"]]
    ![ ![ "EIGHT", "HEARTS"], ![ "ACE", "HEARTS"], ![ "TEN", "HEARTS"], ![ "KING", "HEARTS"]]

/-- Game C: the cards of game A, at a table without Alice and Bob. -/
def gameC : gameResult :=
  { gameA with Players := ![ "Erin", "Frank", "Carol", "Dave"] }

/-- Game D: the cards of game A, with the same name at two seats. -/
def gameD : gameResult :=
  { gameA with Players := ![ "Alice", "Alice", "Bob", "Carol"] }

/-- Game P: every seat plays the card with value AB and suit C. -/
def gameP : gameResult :=
  sampleGame ![ "Alice", "Bob", "Carol", "Dave"] 0 0
    (fun _ => ![ "AB", "C"]) (fun _ => ![ "AB", "C"])

/-- Game Q: every seat plays the card with value A and suit BC. -/
def gameQ : gameResult :=
  sampleGame ![ "Alice", "Bob", "Carol", "Dave"] 0 0
    (fun _ => ![ "A", "BC"]) (fun _ => ![ "A", "BC"])

/-- The zero value of `renderableGame`. -/
def zeroGame : renderableGame :=
  { UniquePlayers := [], Players := fun _ => "", StartingPlayer := "", Trump := ""
    PlayingTeam := fun _ => "", OpposingTeam := fun _ => ""
    PlayingTeamScore := 0, OpposingTeamScore := 0
    PlayingTeamScoreExclGlory := 0, OpposingTeamScoreExclGlory := 0
    PlayingTeamGlory := 0, OpposingTeamGlory := 0, Rounds := fun _ => zeroRound }

/-- The view of game `r` in `group`, or the zero value when the call panics. -/
def viewOf (r : gameResult) (group : List gameResult) : renderableGame :=
  (Renderable r group).getD zeroGame

/-- A group in which two cards with the same key are the same card, in value
and in suit: the concatenation of line 86 confuses no two of its cards. -/
def keysFaithful (group : List gameResult) : Prop :=
  ∀ a ∈ group, ∀ b ∈ group, ∀ (i : Fin 8) (s t : Fin 4),
    cardKey (a.Rounds i s) = cardKey (b.Rounds i t) → sameCard (a.Rounds i s) (b.Rounds i t)

/-- Game E: game B with starting player 4, which is not a seat. -/
def gameE : gameResult :=
  { gameB with StartingPlayer := 4 }

/-- Game F: game A with the winner of the last round recorded as 9, which is
not a seat. -/
def gameF : gameResult :=
  { gameA with RoundWinners := fun i => if i = 7 then 9 else 2 }

/-- Game G: game B with starting player 5, which is not a seat. -/
def gameG : gameResult :=
  { gameB with StartingPlayer := 5 }

/-- Game H: game A with starting player 4, which is not a seat. -/
def gameH : gameResult :=
  { gameA with StartingPlayer := 4 }

/-- Game S: game A with the least 64-bit integer as score of the playing team. -/
def gameS : gameResult :=
  { gameA with Scores := ![-9223372036854775808, 62] }

/-! ## The handler gamePage, after loading (webserver.go, lines 197-213) -/

/-- The responses that `gamePage` builds with the package `respond` in lines
197-213: the message of `respond.NotFound`, the error of `respond.Error`, the
data handed to `respond.RenderTemplate`. -/
inductive HttpResponse where
  | NotFound (msg : String)
  | Error
  | RenderTemplate (data : List renderableGame)

/-- What a run of lines 197-213 does: the calls of `Renderable` it makes, in
order, each with its receiver and its argument, and the response it returns,
`none` when a call panics. -/
structure pageRun where
  calls : List (gameResult × List gameResult)
  response : Option HttpResponse

/-- Lines 208-211: the loop `for i, g := range games`, over the games still to
visit; it stops at the first call that panics. -/
def renderLoop (games : List gameResult) :
    List gameResult → List (gameResult × List gameResult) × Option (List renderableGame)
  | [] => ([], some [])
  | g :: rest =>
    match Renderable g games with
    | none => ([(g, games)], none)
    | some v =>
      ((g, games) :: (renderLoop games rest).1,
        (renderLoop games rest).2.map (fun vs => v :: vs))

/-- Lines 197-213 of `gamePage`: `games` is the slice loaded in lines 175-196
and `templateParsed` tells whether `template.ParseFiles` returned no error. -/
def gamePage (games : List gameResult) (templateParsed : Bool) : pageRun :=
  match games.length with
  | 0 => { calls := [], response := some (HttpResponse.NotFound "No games found with this seed") }
  | 1 =>
    { calls := []
      response := some (HttpResponse.NotFound
        "Only 1 game found with this seed, not enough to compare") }
  | _ =>
    if templateParsed then
      { calls := (renderLoop games games).1
        response := (renderLoop games games).2.map HttpResponse.RenderTemplate }
    else
      { calls := [], response := some HttpResponse.Error }

theorem seatOf_val (x : Int) : ((seatOf x).val : Int) = x % 4 := by
  simp only [seatOf]; omega

theorem seatOf_coe (s : Fin 4) : seatOf (s.val : Int) = s := by
  apply Fin.ext; simp only [seatOf]; omega

theorem wrap64_of_small (x : Int) (h1 : -9223372036854775808 ≤ x) (h2 : x < 9223372036854775808) :
    wrap64 x = x := by
  unfold wrap64; omega

theorem wrap64_emod4 (x : Int) : wrap64 x % 4 = x % 4 := by
  unfold wrap64; omega

theorem goRem_of_nonneg (a : Int) (h : 0 ≤ a) : goRem a 4 = a % 4 := by
  unfold goRem; exact Int.tmod_eq_emod h (by decide)

theorem displayIndex_eq (j sp : Int) (hj : 0 ≤ j ∧ j < 4) (hs : 0 ≤ sp ∧ sp < 4) :
    displayIndex j sp = (j + sp) % 4 := by
  unfold displayIndex
  rw [wrap64_of_small _ (by omega) (by omega), goRem_of_nonneg _ (by omega)]

theorem alignIndex_eq (j sp ogsp : Int) (hj : 0 ≤ j ∧ j < 4) (hs : 0 ≤ sp ∧ sp < 4)
    (ho : 0 ≤ ogsp ∧ ogsp < 4) : alignIndex j sp ogsp = (j + sp - ogsp) % 4 := by
  unfold alignIndex
  rw [wrap64_of_small (j + sp) (by omega) (by omega),
    wrap64_of_small (j + sp - ogsp) (by omega) (by omega),
    wrap64_of_small (j + sp - ogsp + 4) (by omega) (by omega),
    goRem_of_nonneg _ (by omega)]
  omega

theorem goIndex_eq_some {α : Type} {n : Nat} (a : Fin n → α) (i : Int) (v : α) :
    goIndex a i = some v ↔ ∃ k : Fin n, (k.val : Int) = i ∧ a k = v := by
  unfold goIndex
  split
  · rename_i h
    simp only [Option.some.injEq]
    constructor
    · intro hv; exact ⟨⟨i.toNat, by omega⟩, by simp only []; omega, hv⟩
    · rintro ⟨k, hk, hv⟩
      have : (⟨i.toNat, by omega⟩ : Fin n) = k := by apply Fin.ext; simp only []; omega
      rw [this]; exact hv
  · rename_i h
    constructor
    · intro hv; exact absurd hv (by simp)
    · rintro ⟨k, hk, _⟩; exfalso; apply h; have := k.isLt; omega

theorem goIndex_coe {α : Type} {n : Nat} (a : Fin n → α) (k : Fin n) :
    goIndex a (k.val : Int) = some (a k) :=
  (goIndex_eq_some a _ _).2 ⟨k, rfl, rfl⟩

theorem goIndex_range {α : Type} {n : Nat} (a : Fin n → α) (i : Int) (v : α)
    (h : goIndex a i = some v) : 0 ≤ i ∧ i < (n : Int) := by
  obtain ⟨k, hk, _⟩ := (goIndex_eq_some a i v).1 h
  have := k.isLt; omega

theorem goStore_eq_some {α : Type} {n : Nat} (a b : Fin n → α) (i : Int) (v : α) :
    goStore a i v = some b ↔ ∃ k : Fin n, (k.val : Int) = i ∧ b = Function.update a k v := by
  unfold goStore
  split
  · rename_i h
    simp only [Option.some.injEq]
    constructor
    · intro hv; exact ⟨⟨i.toNat, by omega⟩, by simp only []; omega, hv.symm⟩
    · rintro ⟨k, hk, hv⟩
      have : (⟨i.toNat, by omega⟩ : Fin n) = k := by apply Fin.ext; simp only []; omega
      rw [this]; exact hv.symm
  · rename_i h
    constructor
    · intro hv; exact absurd hv (by simp)
    · rintro ⟨k, hk, _⟩; exfalso; apply h; have := k.isLt; omega

/-! ## Loops that write one cell per iteration -/

theorem foldlM_cells {ι α : Type} {n : Nat}
    (step : (Fin n → α) → ι → Option (Fin n → α))
    (pos : ι → Fin n) (val : ι → α) (P : ι → Prop)
    (hstep : ∀ s x s', step s x = some s' → P x ∧ s' = Function.update s (pos x) (val x))
    (l : List ι) (hnd : (l.map pos).Nodup) (init res : Fin n → α)
    (h : l.foldlM step init = some res) :
    (∀ x ∈ l, P x ∧ res (pos x) = val x) ∧ (∀ k, k ∉ l.map pos → res k = init k) := by
  induction l generalizing init with
  | nil =>
    simp only [List.foldlM_nil, Option.pure_def, Option.some.injEq] at h
    subst h
    exact ⟨fun x hx => absurd hx (List.not_mem_nil x), fun _ _ => rfl⟩
  | cons a t ih =>
    simp only [List.foldlM_cons, Option.bind_eq_bind, Option.bind_eq_some] at h
    obtain ⟨s1, hs1, hrest⟩ := h
    obtain ⟨hPa, hs1eq⟩ := hstep init a s1 hs1
    rw [List.map_cons, List.nodup_cons] at hnd
    obtain ⟨hmem, hres⟩ := ih hnd.2 s1 hrest
    refine ⟨?_, ?_⟩
    · intro x hx
      rcases List.mem_cons.1 hx with rfl | hxt
      · refine ⟨hPa, ?_⟩
        rw [hres _ hnd.1, hs1eq, Function.update_same]
      · exact hmem x hxt
    · intro k hk
      rw [List.map_cons, List.mem_cons, not_or] at hk
      rw [hres k hk.2, hs1eq, Function.update_noteq hk.1]

theorem foldlM_succeeds {ι σ : Type} (step : σ → ι → Option σ) (l : List ι)
    (hstep : ∀ s x, x ∈ l → ∃ s', step s x = some s') (init : σ) :
    ∃ res, l.foldlM step init = some res := by
  induction l generalizing init with
  | nil => exact ⟨init, rfl⟩
  | cons a t ih =>
    obtain ⟨s1, hs1⟩ := hstep init a (List.mem_cons_self a t)
    obtain ⟨res, hres⟩ := ih (fun s x hx => hstep s x (List.mem_cons_of_mem a hx)) s1
    refine ⟨res, ?_⟩
    simp only [List.foldlM_cons, Option.bind_eq_bind, hs1, Option.some_bind]
    exact hres

theorem mem_roundIndices (i : Fin 8) : i ∈ roundIndices := by
  revert i; decide

theorem mem_seatIndices (j : Fin 4) : j ∈ seatIndices := by
  revert j; decide

theorem displaySeat_nodup (sp : Int) (hs : 0 ≤ sp ∧ sp < 4) :
    (seatIndices.map (fun j : Fin 4 => seatOf ((j.val : Int) + sp))).Nodup := by
  obtain ⟨k, rfl⟩ : ∃ k : Fin 4, sp = (k.val : Int) := ⟨⟨sp.toNat, by omega⟩, by simp only []; omega⟩
  revert k; decide

/-! ## What a successful call of Renderable has computed -/

theorem seatOf_sub_add (k : Fin 4) (sp : Int) :
    seatOf (((seatOf ((k.val : Int) - sp)).val : Int) + sp) = k := by
  apply Fin.ext
  have h1 := seatOf_val ((k.val : Int) - sp)
  have h2 := seatOf_val (((seatOf ((k.val : Int) - sp)).val : Int) + sp)
  have := k.isLt
  omega

theorem cardStep_some (r : gameResult) (allGames : List gameResult) (i : Fin 8) (sp : Int)
    (hs : 0 ≤ sp ∧ sp < 4) (cards cards' : Fin 4 → playedCard) (j : Fin 4)
    (h : cardStep r allGames i sp cards j = some cards') :
    (∃ ch, choices allGames i j sp = some ch) ∧
    cards' = Function.update cards (seatOf ((j.val : Int) + sp))
      { Value := r.Rounds i j 0
        Suit := r.Rounds i j 1
        Winner := decide (r.RoundWinners i = ((seatOf ((j.val : Int) + sp)).val : Int))
        Different := decide (((choices allGames i j sp).getD []).length ≠ 1) } := by
  have hj : (0 : Int) ≤ (j.val : Int) ∧ (j.val : Int) < 4 := by have := j.isLt; omega
  have hd : displayIndex (j.val : Int) sp = ((seatOf ((j.val : Int) + sp)).val : Int) := by
    rw [displayIndex_eq _ _ hj hs, seatOf_val]
  simp only [cardStep, Option.bind_eq_bind, Option.bind_eq_some] at h
  obtain ⟨ch, hch, hst⟩ := h
  refine ⟨⟨ch, hch⟩, ?_⟩
  obtain ⟨k, hk, hupd⟩ := (goStore_eq_some _ _ _ _).1 hst
  have hkeq : k = seatOf ((j.val : Int) + sp) := by
    apply Fin.ext
    have := hd ▸ hk
    omega
  rw [hupd, hkeq, hd, hch]
  rfl

theorem renderRound_some (r : gameResult) (allGames : List gameResult) (i : Fin 8) (rd : round)
    (h : renderRound r allGames i = some rd) :
    (0 ≤ roundLeader r i ∧ roundLeader r i < 4) ∧
    goIndex r.Players (roundLeader r i) = some rd.StartingPlayer ∧
    rd.Glory = r.RoundGlory i ∧
    ∀ j : Fin 4, ∃ ch, choices allGames i j (roundLeader r i) = some ch ∧
      rd.Cards (seatOf ((j.val : Int) + roundLeader r i)) =
        { Value := r.Rounds i j 0
          Suit := r.Rounds i j 1
          Winner := decide (r.RoundWinners i =
            ((seatOf ((j.val : Int) + roundLeader r i)).val : Int))
          Different := decide (ch.length ≠ 1) } := by
  simp only [renderRound, Option.bind_eq_bind, Option.bind_eq_some, Option.some.injEq] at h
  obtain ⟨name, hname, cards, hcards, hrd⟩ := h
  have hs := goIndex_range _ _ _ hname
  have hs4 : 0 ≤ roundLeader r i ∧ roundLeader r i < 4 := by
    constructor
    · exact hs.1
    · have := hs.2; omega
  subst hrd
  refine ⟨hs4, hname, rfl, ?_⟩
  have hcells := foldlM_cells (cardStep r allGames i (roundLeader r i))
    (fun j => seatOf ((j.val : Int) + roundLeader r i))
    (fun j => { Value := r.Rounds i j 0
                Suit := r.Rounds i j 1
                Winner := decide (r.RoundWinners i =
                  ((seatOf ((j.val : Int) + roundLeader r i)).val : Int))
                Different := decide
                  (((choices allGames i j (roundLeader r i)).getD []).length ≠ 1) })
    (fun j => ∃ ch, choices allGames i j (roundLeader r i) = some ch)
    (fun s x s' hst => cardStep_some r allGames i _ hs4 s s' x hst)
    seatIndices (displaySeat_nodup _ hs4) _ _ hcards
  intro j
  obtain ⟨⟨ch, hch⟩, hval⟩ := hcells.1 j (mem_seatIndices j)
  refine ⟨ch, hch, ?_⟩
  simp only [] at hval ⊢
  rw [hval, hch]
  rfl

theorem roundStep_some (r : gameResult) (allGames : List gameResult)
    (rounds rounds' : Fin 8 → round) (i : Fin 8)
    (h : roundStep r allGames rounds i = some rounds') :
    (∃ rd, renderRound r allGames i = some rd) ∧
    rounds' = Function.update rounds i ((renderRound r allGames i).getD zeroRound) := by
  simp only [roundStep, Option.bind_eq_bind, Option.bind_eq_some, Option.some.injEq] at h
  obtain ⟨rd, hrd, hupd⟩ := h
  refine ⟨⟨rd, hrd⟩, ?_⟩
  rw [← hupd, hrd]
  rfl

theorem rounds_loop_some (r : gameResult) (allGames : List gameResult)
    (init rounds : Fin 8 → round)
    (h : roundIndices.foldlM (roundStep r allGames) init = some rounds) (i : Fin 8) :
    renderRound r allGames i = some (rounds i) := by
  have hcells := foldlM_cells (roundStep r allGames) (fun i => i)
    (fun i => (renderRound r allGames i).getD zeroRound)
    (fun i => ∃ rd, renderRound r allGames i = some rd)
    (fun s x s' hst => roundStep_some r allGames s s' x hst)
    roundIndices (by decide) init rounds h
  obtain ⟨⟨rd, hrd⟩, hval⟩ := hcells.1 i (mem_roundIndices i)
  simp only [] at hval
  rw [hval, hrd]
  rfl

theorem Renderable_some (r : gameResult) (allGames : List gameResult) (out : renderableGame)
    (h : Renderable r allGames = some out) :
    ∃ startingPlayer partner opp0 opp1 rounds,
      goIndex r.Players r.StartingPlayer = some startingPlayer ∧
      goIndex r.Players (goRem (wrap64 (r.StartingPlayer + 2)) 4) = some partner ∧
      goIndex r.Players (goRem (wrap64 (r.StartingPlayer + 1)) 4) = some opp0 ∧
      goIndex r.Players (goRem (wrap64 (r.StartingPlayer + 3)) 4) = some opp1 ∧
      roundIndices.foldlM (roundStep r allGames) (fun _ => zeroRound) = some rounds ∧
      out =
        { Players := r.Players
          UniquePlayers := uniquePlayers r (playerOccurrences allGames)
          StartingPlayer := startingPlayer
          Trump := r.Trump
          PlayingTeam := ![startingPlayer, partner]
          OpposingTeam := ![opp0, opp1]
          PlayingTeamScore := r.Scores 0
          OpposingTeamScore := r.Scores 1
          PlayingTeamGlory := r.Glory 0
          OpposingTeamGlory := r.Glory 1
          PlayingTeamScoreExclGlory := wrap64 (r.Scores 0 - r.Glory 0)
          OpposingTeamScoreExclGlory := wrap64 (r.Scores 1 - r.Glory 1)
          Rounds := rounds } := by
  simp only [Renderable, Option.bind_eq_bind, Option.bind_eq_some, Option.some.injEq] at h
  obtain ⟨a, ha, b, hb, c, hc, d, hd, rs, hrs, hout⟩ := h
  exact ⟨a, b, c, d, rs, ha, hb, hc, hd, hrs, hout.symm⟩

theorem Renderable_round (r : gameResult) (allGames : List gameResult) (out : renderableGame)
    (h : Renderable r allGames = some out) (i : Fin 8) :
    renderRound r allGames i = some (out.Rounds i) := by
  obtain ⟨a, b, c, d, rs, _, _, _, _, hrs, hout⟩ := Renderable_some r allGames out h
  subst hout
  exact rounds_loop_some r allGames _ rs hrs i

theorem Renderable_uniquePlayers (r : gameResult) (allGames : List gameResult)
    (out : renderableGame) (h : Renderable r allGames = some out) :
    out.UniquePlayers = uniquePlayers r (playerOccurrences allGames) := by
  obtain ⟨a, b, c, d, rs, _, _, _, _, _, hout⟩ := Renderable_some r allGames out h
  subst hout
  rfl

/-- The card at output index `k` of round `i`, described from `k`. -/
theorem Renderable_card (r : gameResult) (allGames : List gameResult) (out : renderableGame)
    (h : Renderable r allGames = some out) (i : Fin 8) (k : Fin 4) :
    ∃ ch, choices allGames i (seatOf ((k.val : Int) - roundLeader r i)) (roundLeader r i) = some ch ∧
      (out.Rounds i).Cards k =
        { Value := r.Rounds i (seatOf ((k.val : Int) - roundLeader r i)) 0
          Suit := r.Rounds i (seatOf ((k.val : Int) - roundLeader r i)) 1
          Winner := decide (r.RoundWinners i = (k.val : Int))
          Different := decide (ch.length ≠ 1) } := by
  obtain ⟨_, _, _, hcards⟩ := renderRound_some r allGames i _ (Renderable_round r allGames out h i)
  obtain ⟨ch, hch, hcard⟩ := hcards (seatOf ((k.val : Int) - roundLeader r i))
  rw [seatOf_sub_add] at hcard
  exact ⟨ch, hch, hcard⟩

/-! ## Maps: the keys of a counter map -/

theorem mapIncr_keys_mem (m : List (String × Int)) (k x : String) :
    x ∈ (mapIncr m k).map Prod.fst ↔ x = k ∨ x ∈ m.map Prod.fst := by
  induction m with
  | nil => simp [mapIncr]
  | cons p t ih =>
    obtain ⟨k', v⟩ := p
    unfold mapIncr
    by_cases hk : k' = k
    · subst hk
      simp only [if_true, List.map_cons, List.mem_cons]
      tauto
    · simp only [if_neg hk, List.map_cons, List.mem_cons, ih]
      tauto

theorem mapIncr_keys_nodup (m : List (String × Int)) (k : String)
    (h : (m.map Prod.fst).Nodup) : ((mapIncr m k).map Prod.fst).Nodup := by
  induction m with
  | nil => simp [mapIncr]
  | cons p t ih =>
    obtain ⟨k', v⟩ := p
    unfold mapIncr
    rw [List.map_cons, List.nodup_cons] at h
    by_cases hk : k' = k
    · subst hk
      simp only [if_true, List.map_cons, List.nodup_cons]
      exact h
    · simp only [if_neg hk, List.map_cons, List.nodup_cons, mapIncr_keys_mem]
      refine ⟨?_, ih h.2⟩
      rintro (h1 | h1)
      · exact hk h1
      · exact h.1 h1

theorem foldl_mapIncr_keys (ks : List String) (m : List (String × Int))
    (h : (m.map Prod.fst).Nodup) :
    ((ks.foldl mapIncr m).map Prod.fst).Nodup ∧
    ∀ x, x ∈ (ks.foldl mapIncr m).map Prod.fst ↔ x ∈ ks ∨ x ∈ m.map Prod.fst := by
  induction ks generalizing m with
  | nil => simp [h]
  | cons a t ih =>
    obtain ⟨h1, h2⟩ := ih (mapIncr m a) (mapIncr_keys_nodup m a h)
    refine ⟨h1, fun x => ?_⟩
    rw [List.foldl_cons, h2, mapIncr_keys_mem, List.mem_cons]
    tauto

/-- The number of keys of the map built from a list of keys is the number of
distinct keys of the list. -/
theorem foldl_mapIncr_length (ks : List String) :
    (ks.foldl mapIncr []).length = ks.toFinset.card := by
  obtain ⟨h1, h2⟩ := foldl_mapIncr_keys ks [] (by simp)
  rw [← List.length_map (ks.foldl mapIncr []) Prod.fst, ← List.toFinset_card_of_nodup h1]
  congr 1
  ext x
  simp [h2]

/-- The map built from a list of keys has exactly one key iff the list is not
empty and all its elements are equal. -/
theorem foldl_mapIncr_length_eq_one (ks : List String) :
    (ks.foldl mapIncr []).length = 1 ↔ ks ≠ [] ∧ ∀ a ∈ ks, ∀ b ∈ ks, a = b := by
  rw [foldl_mapIncr_length, Finset.card_eq_one]
  constructor
  · rintro ⟨a, ha⟩
    have hmem : ∀ x, x ∈ ks ↔ x = a := by
      intro x
      rw [← List.mem_toFinset, ha, Finset.mem_singleton]
    refine ⟨?_, fun x hx y hy => ((hmem x).1 hx).trans ((hmem y).1 hy).symm⟩
    intro hnil
    have := (hmem a).2 rfl
    rw [hnil] at this
    exact absurd this (List.not_mem_nil a)
  · rintro ⟨hne, hall⟩
    obtain ⟨a, t, rfl⟩ := List.exists_cons_of_ne_nil hne
    refine ⟨a, ?_⟩
    ext x
    rw [List.mem_toFinset, Finset.mem_singleton]
    constructor
    · intro hx; exact hall x hx a (List.mem_cons_self a t)
    · rintro rfl; exact List.mem_cons_self _ t

/-! ## The map of choices -/

theorem choices_of_keys (allGames : List gameResult) (i : Fin 8) (j : Fin 4) (sp : Int)
    (key : gameResult → String)
    (hkey : ∀ og ∈ allGames, choiceKey og i j sp = some (key og)) (m : List (String × Int)) :
    allGames.foldlM (fun m og => do
      let k ← choiceKey og i j sp
      some (mapIncr m k)) m = some ((allGames.map key).foldl mapIncr m) := by
  induction allGames generalizing m with
  | nil => rfl
  | cons g t ih =>
    simp only [List.foldlM_cons, Option.bind_eq_bind, hkey g (List.mem_cons_self g t),
      Option.some_bind, List.map_cons, List.foldl_cons]
    exact ih (fun og hog => hkey og (List.mem_cons_of_mem g hog)) _

/-- Whether the list of keys read across the group makes the flag true. -/
theorem choices_length_ne_one (allGames : List gameResult) (i : Fin 8) (j : Fin 4) (sp : Int)
    (key : gameResult → String)
    (hkey : ∀ og ∈ allGames, choiceKey og i j sp = some (key og))
    (ch : List (String × Int)) (hch : choices allGames i j sp = some ch) :
    ch.length ≠ 1 ↔ ¬ (allGames ≠ [] ∧ ∀ a ∈ allGames, ∀ b ∈ allGames, key a = key b) := by
  unfold choices at hch
  rw [choices_of_keys allGames i j sp key hkey, Option.some.injEq] at hch
  subst hch
  rw [not_iff_not, foldl_mapIncr_length_eq_one]
  constructor
  · rintro ⟨hne, hall⟩
    refine ⟨fun hnil => hne (by rw [hnil]; rfl), fun a ha b hb => ?_⟩
    exact hall _ (List.mem_map_of_mem key ha) _ (List.mem_map_of_mem key hb)
  · rintro ⟨hne, hall⟩
    refine ⟨fun hnil => hne (List.map_eq_nil_iff.1 hnil), ?_⟩
    intro x hx y hy
    obtain ⟨a, ha, rfl⟩ := List.mem_map.1 hx
    obtain ⟨b, hb, rfl⟩ := List.mem_map.1 hy
    exact hall a ha b hb

/-! ## Well-formed games -/

theorem roundLeader_range (g : gameResult) (hg : wellFormed g) (i : Fin 8) :
    0 ≤ roundLeader g i ∧ roundLeader g i < 4 := by
  unfold roundLeader
  split
  · exact hg.2 _
  · exact hg.1

theorem choiceKey_of_range (og : gameResult) (i : Fin 8) (j : Fin 4) (sp : Int)
    (hs : 0 ≤ sp ∧ sp < 4) (ho : 0 ≤ roundLeader og i ∧ roundLeader og i < 4) :
    choiceKey og i j sp =
      some (cardKey (og.Rounds i (seatOf ((j.val : Int) + sp - roundLeader og i)))) := by
  have hj : (0 : Int) ≤ (j.val : Int) ∧ (j.val : Int) < 4 := by have := j.isLt; omega
  unfold choiceKey
  rw [alignIndex_eq _ _ _ hj hs ho, ← seatOf_val, goIndex_coe]
  rfl

/-! ## Well-formed input: the call returns -/

theorem goIndex_succeeds {α : Type} {n : Nat} (a : Fin n → α) (i : Int)
    (h : 0 ≤ i ∧ i < (n : Int)) : ∃ v, goIndex a i = some v :=
  ⟨a ⟨i.toNat, by omega⟩, (goIndex_eq_some a i _).2 ⟨⟨i.toNat, by omega⟩, by simp only []; omega, rfl⟩⟩

theorem goStore_succeeds {α : Type} {n : Nat} (a : Fin n → α) (i : Int) (v : α)
    (h : 0 ≤ i ∧ i < (n : Int)) : ∃ b, goStore a i v = some b :=
  ⟨_, (goStore_eq_some a _ i v).2 ⟨⟨i.toNat, by omega⟩, by simp only []; omega, rfl⟩⟩

theorem partnerIndex_range (sp c : Int) (hs : 0 ≤ sp ∧ sp < 4) (hc : 0 ≤ c ∧ c < 4) :
    0 ≤ goRem (wrap64 (sp + c)) 4 ∧ goRem (wrap64 (sp + c)) 4 < ((4 : Nat) : Int) := by
  rw [wrap64_of_small _ (by omega) (by omega), goRem_of_nonneg _ (by omega)]
  omega

theorem choices_succeeds (allGames : List gameResult) (hall : ∀ g ∈ allGames, wellFormed g)
    (i : Fin 8) (j : Fin 4) (sp : Int) (hs : 0 ≤ sp ∧ sp < 4) :
    ∃ ch, choices allGames i j sp = some ch := by
  unfold choices
  rw [choices_of_keys allGames i j sp
    (fun og => cardKey (og.Rounds i (seatOf ((j.val : Int) + sp - roundLeader og i))))
    (fun og hog => choiceKey_of_range og i j sp hs (roundLeader_range og (hall og hog) i))]
  exact ⟨_, rfl⟩

theorem renderRound_succeeds (r : gameResult) (allGames : List gameResult)
    (hr : wellFormed r) (hall : ∀ g ∈ allGames, wellFormed g) (i : Fin 8) :
    ∃ rd, renderRound r allGames i = some rd := by
  have hs := roundLeader_range r hr i
  obtain ⟨name, hname⟩ := goIndex_succeeds r.Players (roundLeader r i) (by omega)
  obtain ⟨cards, hcards⟩ := foldlM_succeeds (cardStep r allGames i (roundLeader r i)) seatIndices
    (fun s j _ => by
      obtain ⟨ch, hch⟩ := choices_succeeds allGames hall i j _ hs
      have hj : (0 : Int) ≤ (j.val : Int) ∧ (j.val : Int) < 4 := by have := j.isLt; omega
      have hd : 0 ≤ displayIndex (j.val : Int) (roundLeader r i) ∧
          displayIndex (j.val : Int) (roundLeader r i) < ((4 : Nat) : Int) := by
        rw [displayIndex_eq _ _ hj hs]; omega
      obtain ⟨b, hb⟩ := goStore_succeeds s (displayIndex (j.val : Int) (roundLeader r i))
        { Value := r.Rounds i j 0
          Suit := r.Rounds i j 1
          Winner := decide (r.RoundWinners i = displayIndex (j.val : Int) (roundLeader r i))
          Different := decide (ch.length ≠ 1) } hd
      exact ⟨b, by simp only [cardStep, Option.bind_eq_bind, hch, Option.some_bind]; exact hb⟩)
    (fun _ => zeroCard)
  simp only [renderRound, Option.bind_eq_bind, hname, hcards, Option.some_bind]
  exact ⟨_, rfl⟩

/-- On a well-formed target and a well-formed group the call does not panic. -/
theorem Renderable_succeeds (r : gameResult) (allGames : List gameResult)
    (hr : wellFormed r) (hall : ∀ g ∈ allGames, wellFormed g) :
    ∃ out, Renderable r allGames = some out := by
  obtain ⟨a, ha⟩ := goIndex_succeeds r.Players r.StartingPlayer (by have := hr.1; omega)
  obtain ⟨b, hb⟩ := goIndex_succeeds r.Players _ (partnerIndex_range r.StartingPlayer 2 hr.1 (by omega))
  obtain ⟨c, hc⟩ := goIndex_succeeds r.Players _ (partnerIndex_range r.StartingPlayer 1 hr.1 (by omega))
  obtain ⟨d, hd⟩ := goIndex_succeeds r.Players _ (partnerIndex_range r.StartingPlayer 3 hr.1 (by omega))
  obtain ⟨rs, hrs⟩ := foldlM_succeeds (roundStep r allGames) roundIndices
    (fun s i _ => by
      obtain ⟨rd, hrd⟩ := renderRound_succeeds r allGames hr hall i
      simp only [roundStep, Option.bind_eq_bind, hrd, Option.some_bind]
      exact ⟨_, rfl⟩)
    (fun _ => zeroRound)
  simp only [Renderable, Option.bind_eq_bind, ha, hb, hc, hd, hrs, Option.some_bind]
  exact ⟨_, rfl⟩

/-- The flag at output index `k` of round `i`, for a well-formed group. -/
theorem Renderable_different (r : gameResult) (allGames : List gameResult) (i : Fin 8)
    (hall : ∀ g ∈ allGames, 0 ≤ roundLeader g i ∧ roundLeader g i < 4) (out : renderableGame)
    (h : Renderable r allGames = some out) (k : Fin 4) :
    ((out.Rounds i).Cards k).Different = true ↔
      ¬ (allGames ≠ [] ∧ ∀ a ∈ allGames, ∀ b ∈ allGames,
        cardKey (a.Rounds i (seatOf ((k.val : Int) - roundLeader a i))) =
        cardKey (b.Rounds i (seatOf ((k.val : Int) - roundLeader b i)))) := by
  obtain ⟨hs, _, _, _⟩ := renderRound_some r allGames i _ (Renderable_round r allGames out h i)
  obtain ⟨ch, hch, hcard⟩ := Renderable_card r allGames out h i k
  have hkey : ∀ og ∈ allGames,
      choiceKey og i (seatOf ((k.val : Int) - roundLeader r i)) (roundLeader r i) =
        some (cardKey (og.Rounds i (seatOf ((k.val : Int) - roundLeader og i)))) := by
    intro og hog
    have hseat : seatOf (((seatOf ((k.val : Int) - roundLeader r i)).val : Int)
        + roundLeader r i - roundLeader og i) = seatOf ((k.val : Int) - roundLeader og i) := by
      apply Fin.ext
      have h1 := seatOf_val ((k.val : Int) - roundLeader r i)
      have h2 := seatOf_val (((seatOf ((k.val : Int) - roundLeader r i)).val : Int)
        + roundLeader r i - roundLeader og i)
      have h3 := seatOf_val ((k.val : Int) - roundLeader og i)
      omega
    rw [choiceKey_of_range og i _ _ hs (hall og hog), hseat]
  rw [hcard]
  simp only [decide_eq_true_eq]
  exact choices_length_ne_one allGames i _ _ _ hkey ch hch

/-! ## The claims -/

theorem roundLeader_zero (g : gameResult) : roundLeader g 0 = g.StartingPlayer := rfl

theorem roundLeader_succ (g : gameResult) (i : Fin 7) :
    roundLeader g i.succ = g.RoundWinners i.castSucc := by
  unfold roundLeader
  rw [dif_pos (by simp)]
  congr 1

theorem standardCard_key_inj (c d : Fin 2 → String) (hc : standardCard c) (hd : standardCard d) :
    cardKey c = cardKey d ↔ sameCard c d := by
  have key : ∀ v ∈ standardValues, ∀ s ∈ standardSuits, ∀ v' ∈ standardValues,
      ∀ s' ∈ standardSuits, v ++ s = v' ++ s' → v = v' ∧ s = s' := by
    set_option maxRecDepth 100000 in decide
  constructor
  · intro h
    exact key _ hc.1 _ hc.2 _ hd.1 _ hd.2 h
  · rintro ⟨h0, h1⟩
    unfold cardKey
    rw [h0, h1]

theorem sameCard_key (c d : Fin 2 → String) (h : sameCard c d) : cardKey c = cardKey d := by
  unfold cardKey
  rw [h.1, h.2]

theorem keysFaithful_of_standard (group : List gameResult)
    (hstd : ∀ g ∈ group, ∀ (i : Fin 8) (s : Fin 4), standardCard (g.Rounds i s)) :
    keysFaithful group :=
  fun a ha b hb i s t hk =>
    (standardCard_key_inj _ _ (hstd a ha i s) (hstd b hb i t)).1 hk

/-- Claim C1, as stated, fails. In the group of games A and B, both well
formed and with standard card names, round 1 is led by seat 2 in A and by
seat 1 in B, and the cards the claim compares for seat 2 of A (the one of
seat 2 of A and the one of seat 1 of B) are the same ace of hearts; yet the
flag on seat 2 of the view of A is true. -/
theorem C1_counterexample :
    wellFormed gameA ∧ wellFormed gameB ∧
    Renderable gameA [gameA, gameB] = some (viewOf gameA [gameA, gameB]) ∧
    ¬ ((((viewOf gameA [gameA, gameB]).Rounds 1).Cards 2).Different = true ↔
        ¬ ∀ a ∈ [gameA, gameB], ∀ b ∈ [gameA, gameB],
          sameCard (a.Rounds 1 (seatOf (2 - roundLeader gameA 1 + roundLeader a 1)))
            (b.Rounds 1 (seatOf (2 - roundLeader gameA 1 + roundLeader b 1)))) :=
  ⟨by decide, by decide, rfl, by decide⟩

/-- Claim C1, amended. For a group of well-formed games whose cards are not
confused by the concatenated key (as with the standard names) and a target of
the group, the call returns a view, and in it the flag of round `i` at output
index `s` is true iff the cards at index `(s - roundLeader g i) mod 4` of
round `i`, over the games `g` of the group, are not all identical in value
and suit. -/
theorem C1_differs_by_output_index (group : List gameResult) (r : gameResult)
    (hall : ∀ g ∈ group, wellFormed g) (hkeys : keysFaithful group) (hr : r ∈ group) :
    ∃ out, Renderable r group = some out ∧
      ∀ (i : Fin 8) (s : Fin 4),
        ((out.Rounds i).Cards s).Different = true ↔
          ¬ ∀ a ∈ group, ∀ b ∈ group,
            sameCard (a.Rounds i (seatOf ((s.val : Int) - roundLeader a i)))
              (b.Rounds i (seatOf ((s.val : Int) - roundLeader b i))) := by
  obtain ⟨out, hout⟩ := Renderable_succeeds r group (hall r hr) hall
  refine ⟨out, hout, fun i s => ?_⟩
  rw [Renderable_different r group i (fun g hg => roundLeader_range g (hall g hg) i) out hout s]
  have hne : group ≠ [] := List.ne_nil_of_mem hr
  simp only [hne, ne_eq, not_false_eq_true, true_and]
  rw [not_iff_not]
  constructor
  · intro hk a ha b hb
    exact hkeys a ha b hb i _ _ (hk a ha b hb)
  · intro hk a ha b hb
    exact sameCard_key _ _ (hk a ha b hb)

/-- Claim C1, amended, at the group of games A and B with target A. -/
theorem C1_differs_by_output_index_witness :
    ∃ out, Renderable gameA [gameA, gameB] = some out ∧
      ∀ (i : Fin 8) (s : Fin 4),
        ((out.Rounds i).Cards s).Different = true ↔
          ¬ ∀ a ∈ [gameA, gameB], ∀ b ∈ [gameA, gameB],
            sameCard (a.Rounds i (seatOf ((s.val : Int) - roundLeader a i)))
              (b.Rounds i (seatOf ((s.val : Int) - roundLeader b i))) :=
  C1_differs_by_output_index [gameA, gameB] gameA (by decide)
    (keysFaithful_of_standard _ (by decide)) (List.mem_cons_self _ _)

/-- Claim C2. In a group whose games all have starting player 0 and standard
card names, for a target of the group whose view is returned, the flag of
round 0 at seat `s` is true iff the games of the group did not all play the
same card, in value and in suit, at seat `s` of round 0. -/
theorem C2_differs_round_zero (group : List gameResult) (r : gameResult) (out : renderableGame)
    (hr : r ∈ group) (hsp : ∀ g ∈ group, g.StartingPlayer = 0)
    (hstd : ∀ g ∈ group, ∀ (i : Fin 8) (s : Fin 4), standardCard (g.Rounds i s))
    (h : Renderable r group = some out) (s : Fin 4) :
    ((out.Rounds 0).Cards s).Different = true ↔
      ¬ ∀ a ∈ group, ∀ b ∈ group, sameCard (a.Rounds 0 s) (b.Rounds 0 s) := by
  have hlead : ∀ g ∈ group, roundLeader g 0 = 0 := fun g hg => by
    rw [roundLeader_zero, hsp g hg]
  rw [Renderable_different r group 0 (fun g hg => by rw [hlead g hg]; omega) out h s]
  have hne : group ≠ [] := List.ne_nil_of_mem hr
  simp only [hne, ne_eq, not_false_eq_true, true_and]
  rw [not_iff_not]
  have hseat : ∀ g ∈ group, seatOf ((s.val : Int) - roundLeader g 0) = s := fun g hg => by
    rw [hlead g hg, sub_zero, seatOf_coe]
  constructor
  · intro hk a ha b hb
    have := hk a ha b hb
    rw [hseat a ha, hseat b hb] at this
    exact (standardCard_key_inj _ _ (hstd a ha 0 s) (hstd b hb 0 s)).1 this
  · intro hk a ha b hb
    rw [hseat a ha, hseat b hb]
    exact (standardCard_key_inj _ _ (hstd a ha 0 s) (hstd b hb 0 s)).2 (hk a ha b hb)

/-- Claim C2 at the scenario of the specification: A plays 7C, 8C, 9C, 10C and
B plays 7C, 8S, 9C, 10C in round 0; in the views of both games seat 1 is
flagged and seats 0, 2 and 3 are not. -/
theorem C2_differs_round_zero_witness :
    ((((viewOf gameA [gameA, gameB]).Rounds 0).Cards 1).Different = true ↔
      ¬ ∀ a ∈ [gameA, gameB], ∀ b ∈ [gameA, gameB], sameCard (a.Rounds 0 1) (b.Rounds 0 1)) ∧
    seatIndices.map (fun s => (((viewOf gameA [gameA, gameB]).Rounds 0).Cards s).Different)
      = [false, true, false, false] ∧
    seatIndices.map (fun s => (((viewOf gameB [gameA, gameB]).Rounds 0).Cards s).Different)
      = [false, true, false, false] :=
  ⟨C2_differs_round_zero [gameA, gameB] gameA (viewOf gameA [gameA, gameB])
      (List.mem_cons_self _ _) (by decide) (by decide) rfl 1,
    by decide, by decide⟩

/-- Claim C3, as stated, fails. Game A is well formed and its round 1 is led
by seat 2; the card at output index 2 of round 1 of its view is the jack
stored at index 0 of the round, not the ace stored at index 2. -/
theorem C3_counterexample :
    wellFormed gameA ∧
    Renderable gameA [gameA, gameB] = some (viewOf gameA [gameA, gameB]) ∧
    (((viewOf gameA [gameA, gameB]).Rounds 1).Cards 2).Value = gameA.Rounds 1 0 0 ∧
    (((viewOf gameA [gameA, gameB]).Rounds 1).Cards 2).Value ≠ gameA.Rounds 1 2 0 :=
  ⟨by decide, rfl, by decide, by decide⟩

/-- Claim C3, amended. In a returned view the card stored at index `j` of
round `i` of the target is carried, value and suit, by the output card at
index `(j + roundLeader r i) mod 4`. -/
theorem C3_cards_rotated_by_leader (r : gameResult) (group : List gameResult)
    (out : renderableGame) (h : Renderable r group = some out) (i : Fin 8) (j : Fin 4) :
    ((out.Rounds i).Cards (seatOf ((j.val : Int) + roundLeader r i))).Value = r.Rounds i j 0 ∧
    ((out.Rounds i).Cards (seatOf ((j.val : Int) + roundLeader r i))).Suit = r.Rounds i j 1 := by
  obtain ⟨_, _, _, hcards⟩ := renderRound_some r group i _ (Renderable_round r group out h i)
  obtain ⟨ch, _, hcard⟩ := hcards j
  rw [hcard]
  exact ⟨rfl, rfl⟩

/-- Claim C3, amended, at game A in the group of A and B, round 1, index 0. -/
theorem C3_cards_rotated_by_leader_witness :
    Renderable gameA [gameA, gameB] = some (viewOf gameA [gameA, gameB]) ∧
    (((viewOf gameA [gameA, gameB]).Rounds 1).Cards
      (seatOf (((0 : Fin 4).val : Int) + roundLeader gameA 1))).Value = gameA.Rounds 1 0 0 ∧
    (((viewOf gameA [gameA, gameB]).Rounds 1).Cards
      (seatOf (((0 : Fin 4).val : Int) + roundLeader gameA 1))).Suit = gameA.Rounds 1 0 1 :=
  ⟨rfl, C3_cards_rotated_by_leader gameA [gameA, gameB] (viewOf gameA [gameA, gameB]) rfl 1 0⟩

/-- Claim C4. In a returned view the card at output seat `s` of round `i` is
marked as winner iff `r.RoundWinners[i] = s`; hence, when that winner is a
seat, 0 to 3, exactly one of the four cards of the round is marked. -/
theorem C4_winner_flag (r : gameResult) (group : List gameResult) (out : renderableGame)
    (h : Renderable r group = some out) (i : Fin 8) :
    (∀ s : Fin 4, ((out.Rounds i).Cards s).Winner = true ↔ r.RoundWinners i = (s.val : Int)) ∧
    ((0 ≤ r.RoundWinners i ∧ r.RoundWinners i < 4) →
      ∃! s : Fin 4, ((out.Rounds i).Cards s).Winner = true) := by
  have hw : ∀ s : Fin 4,
      ((out.Rounds i).Cards s).Winner = true ↔ r.RoundWinners i = (s.val : Int) := by
    intro s
    obtain ⟨ch, _, hcard⟩ := Renderable_card r group out h i s
    rw [hcard]
    simp only [decide_eq_true_eq]
  refine ⟨hw, fun hrange => ?_⟩
  refine ⟨⟨(r.RoundWinners i).toNat, by omega⟩, ?_, ?_⟩
  · simp only [hw]; omega
  · intro s hs
    apply Fin.ext
    have := (hw s).1 hs
    simp only []; omega

/-- Claim C4 at game A in the group of A and B, round 0. -/
theorem C4_winner_flag_witness :
    Renderable gameA [gameA, gameB] = some (viewOf gameA [gameA, gameB]) ∧
    ((∀ s : Fin 4, (((viewOf gameA [gameA, gameB]).Rounds 0).Cards s).Winner = true ↔
        gameA.RoundWinners 0 = (s.val : Int)) ∧
      ((0 ≤ gameA.RoundWinners 0 ∧ gameA.RoundWinners 0 < 4) →
        ∃! s : Fin 4, (((viewOf gameA [gameA, gameB]).Rounds 0).Cards s).Winner = true)) :=
  ⟨rfl, C4_winner_flag gameA [gameA, gameB] (viewOf gameA [gameA, gameB]) rfl 0⟩

/-- Claim C5. In a returned view the leader name of round 0 is the checked
read `r.Players[r.StartingPlayer]`, the leader name of round `i + 1` is the
checked read `r.Players[r.RoundWinners[i]]`, and the glory of every round is
`r.RoundGlory[i]`. -/
theorem C5_round_leader_names (r : gameResult) (group : List gameResult) (out : renderableGame)
    (h : Renderable r group = some out) :
    goIndex r.Players r.StartingPlayer = some (out.Rounds 0).StartingPlayer ∧
    (∀ i : Fin 7, goIndex r.Players (r.RoundWinners i.castSucc)
      = some (out.Rounds i.succ).StartingPlayer) ∧
    (∀ i : Fin 8, (out.Rounds i).Glory = r.RoundGlory i) := by
  have hround := fun i => renderRound_some r group i _ (Renderable_round r group out h i)
  refine ⟨?_, fun i => ?_, fun i => (hround i).2.2.1⟩
  · have := (hround 0).2.1
    rwa [roundLeader_zero] at this
  · have := (hround i.succ).2.1
    rwa [roundLeader_succ] at this

/-- Claim C5 at game A in the group of A and B. -/
theorem C5_round_leader_names_witness :
    Renderable gameA [gameA, gameB] = some (viewOf gameA [gameA, gameB]) ∧
    (goIndex gameA.Players gameA.StartingPlayer
        = some ((viewOf gameA [gameA, gameB]).Rounds 0).StartingPlayer ∧
      (∀ i : Fin 7, goIndex gameA.Players (gameA.RoundWinners i.castSucc)
        = some ((viewOf gameA [gameA, gameB]).Rounds i.succ).StartingPlayer) ∧
      (∀ i : Fin 8, ((viewOf gameA [gameA, gameB]).Rounds i).Glory = gameA.RoundGlory i)) :=
  ⟨rfl, C5_round_leader_names gameA [gameA, gameB] (viewOf gameA [gameA, gameB]) rfl⟩

/-- Claim C6. For a loop seat `j` and round leaders `sp` and `ogsp`, all in 0
to 3, the index expression `(j+sp-ogsp+4)%4` of line 86 equals the
mathematical `(j + sp - ogsp) mod 4`, lies in 0 to 3, and the operand of `%`
is `j + sp - ogsp + 4`, which is not negative. -/
theorem C6_alignment_formula (j sp ogsp : Int) (hj : 0 ≤ j ∧ j < 4) (hs : 0 ≤ sp ∧ sp < 4)
    (ho : 0 ≤ ogsp ∧ ogsp < 4) :
    alignIndex j sp ogsp = (j + sp - ogsp) % 4 ∧
    (0 ≤ alignIndex j sp ogsp ∧ alignIndex j sp ogsp < 4) ∧
    wrap64 (wrap64 (wrap64 (j + sp) - ogsp) + 4) = j + sp - ogsp + 4 ∧
    0 ≤ wrap64 (wrap64 (wrap64 (j + sp) - ogsp) + 4) := by
  have hop : wrap64 (wrap64 (wrap64 (j + sp) - ogsp) + 4) = j + sp - ogsp + 4 := by
    rw [wrap64_of_small (j + sp) (by omega) (by omega),
      wrap64_of_small (j + sp - ogsp) (by omega) (by omega),
      wrap64_of_small (j + sp - ogsp + 4) (by omega) (by omega)]
  rw [alignIndex_eq j sp ogsp hj hs ho, hop]
  omega

/-- Claim C6 at loop seat 0, target leader 0 and other leader 3, where
`j + sp - ogsp` is negative. -/
theorem C6_alignment_formula_witness :
    alignIndex 0 0 3 = (0 + 0 - 3) % 4 ∧
    (0 ≤ alignIndex 0 0 3 ∧ alignIndex 0 0 3 < 4) ∧
    wrap64 (wrap64 (wrap64 (0 + 0) - 3) + 4) = 0 + 0 - 3 + 4 ∧
    0 ≤ wrap64 (wrap64 (wrap64 (0 + 0) - 3) + 4) :=
  C6_alignment_formula 0 0 3 (by decide) (by decide) (by decide)

/-- Claim C7. For a well-formed game, aligned to itself, the index expression
of line 86 returns the loop seat, so the key the game contributes to the
comparison is the key of the card at that seat. -/
theorem C7_reflexive_alignment (g : gameResult) (hg : wellFormed g) (i : Fin 8) (s : Fin 4) :
    alignSeat g g i (s.val : Int) = (s.val : Int) ∧
    choiceKey g i s (roundLeader g i) = some (cardKey (g.Rounds i s)) := by
  have hl := roundLeader_range g hg i
  have hs : (0 : Int) ≤ (s.val : Int) ∧ (s.val : Int) < 4 := by have := s.isLt; omega
  refine ⟨?_, ?_⟩
  · unfold alignSeat
    rw [alignIndex_eq _ _ _ hs hl hl]
    omega
  · rw [choiceKey_of_range g i s _ hl hl]
    have : seatOf ((s.val : Int) + roundLeader g i - roundLeader g i) = s := by
      rw [add_sub_cancel_right, seatOf_coe]
    rw [this]

/-- Claim C7 at game A, round 1 and seat 3. -/
theorem C7_reflexive_alignment_witness :
    alignSeat gameA gameA 1 ((3 : Fin 4).val : Int) = ((3 : Fin 4).val : Int) ∧
    choiceKey gameA 1 3 (roundLeader gameA 1) = some (cardKey (gameA.Rounds 1 3)) :=
  C7_reflexive_alignment gameA (by decide) 1 3

/-- Claim C8. For well-formed games `g1` and `g2`, aligning a seat from `g2`
to `g1` and back from `g1` to `g2` returns the seat. -/
theorem C8_alignment_symmetry (g1 g2 : gameResult) (h1 : wellFormed g1) (h2 : wellFormed g2)
    (i : Fin 8) (s : Fin 4) :
    alignSeat g1 g2 i (alignSeat g2 g1 i (s.val : Int)) = (s.val : Int) := by
  have hl1 := roundLeader_range g1 h1 i
  have hl2 := roundLeader_range g2 h2 i
  have hs : (0 : Int) ≤ (s.val : Int) ∧ (s.val : Int) < 4 := by have := s.isLt; omega
  unfold alignSeat
  rw [alignIndex_eq _ _ _ hs hl2 hl1, alignIndex_eq _ _ _ (by omega) hl1 hl2]
  omega

/-- Claim C8 at games A and B, round 1 and seat 2. -/
theorem C8_alignment_symmetry_witness :
    alignSeat gameA gameB 1 (alignSeat gameB gameA 1 ((2 : Fin 4).val : Int))
      = ((2 : Fin 4).val : Int) :=
  C8_alignment_symmetry gameA gameB (by decide) (by decide) 1 2

/-- Claim C9, as stated, fails. In the group of the well-formed games A and
B, round 1 is led by seat 2 in A and by seat 1 in B; at turn-order position 0
the view of A flags its seat `(0 + 2) mod 4` and the view of B does not flag
its seat `(0 + 1) mod 4`. -/
theorem C9_counterexample :
    wellFormed gameA ∧ wellFormed gameB ∧
    Renderable gameA [gameA, gameB] = some (viewOf gameA [gameA, gameB]) ∧
    Renderable gameB [gameA, gameB] = some (viewOf gameB [gameA, gameB]) ∧
    (((viewOf gameA [gameA, gameB]).Rounds 1).Cards
      (seatOf (0 + roundLeader gameA 1))).Different = true ∧
    (((viewOf gameB [gameA, gameB]).Rounds 1).Cards
      (seatOf (0 + roundLeader gameB 1))).Different = false :=
  ⟨by decide, by decide, rfl, rfl, by decide, by decide⟩

/-- Claim C9, amended. For a group of well-formed games and two targets of
the group both calls return a view, and the two views carry the same flag at
every round `i` and every output index `k`. -/
theorem C9_differs_same_output_index (group : List gameResult) (r1 r2 : gameResult)
    (hall : ∀ g ∈ group, wellFormed g) (h1 : r1 ∈ group) (h2 : r2 ∈ group) :
    ∃ out1 out2, Renderable r1 group = some out1 ∧ Renderable r2 group = some out2 ∧
      ∀ (i : Fin 8) (k : Fin 4),
        ((out1.Rounds i).Cards k).Different = ((out2.Rounds i).Cards k).Different := by
  obtain ⟨out1, ho1⟩ := Renderable_succeeds r1 group (hall r1 h1) hall
  obtain ⟨out2, ho2⟩ := Renderable_succeeds r2 group (hall r2 h2) hall
  refine ⟨out1, out2, ho1, ho2, fun i k => ?_⟩
  have hl : ∀ g ∈ group, 0 ≤ roundLeader g i ∧ roundLeader g i < 4 :=
    fun g hg => roundLeader_range g (hall g hg) i
  have e1 := Renderable_different r1 group i hl out1 ho1 k
  have e2 := Renderable_different r2 group i hl out2 ho2 k
  rw [Bool.eq_iff_iff, e1, e2]

/-- Claim C9, amended, at the group of games A and B with targets A and B. -/
theorem C9_differs_same_output_index_witness :
    ∃ out1 out2, Renderable gameA [gameA, gameB] = some out1 ∧
      Renderable gameB [gameA, gameB] = some out2 ∧
      ∀ (i : Fin 8) (k : Fin 4),
        ((out1.Rounds i).Cards k).Different = ((out2.Rounds i).Cards k).Different :=
  C9_differs_same_output_index [gameA, gameB] gameA gameB (by decide)
    (List.mem_cons_self _ _) (List.mem_cons_of_mem _ (List.mem_cons_self _ _))

theorem mapGet_mapIncr (m : List (String × Int)) (k p : String) :
    mapGet (mapIncr m k) p = mapGet m p + (if k = p then 1 else 0) := by
  induction m with
  | nil => simp [mapIncr, mapGet]
  | cons q t ih =>
    obtain ⟨k', v⟩ := q
    unfold mapIncr
    by_cases hk : k' = k
    · subst hk
      by_cases hp : k' = p
      · simp [mapGet, hp]
      · simp [mapGet, hp]
    · rw [if_neg hk]
      by_cases hp : k' = p
      · have hkp : ¬ k = p := fun e => hk (hp.trans e.symm)
        simp [mapGet, hp, hkp]
      · simp only [mapGet, if_neg hp]
        exact ih

theorem mapGet_foldl_mapIncr (ks : List String) (m : List (String × Int)) (p : String) :
    mapGet (ks.foldl mapIncr m) p = mapGet m p + (ks.count p : Int) := by
  induction ks generalizing m with
  | nil => simp
  | cons a t ih =>
    rw [List.foldl_cons, ih, mapGet_mapIncr, List.count_cons]
    by_cases h : a = p
    · simp [h]; omega
    · simp [h]

theorem mapGet_playerOccurrences_aux (allGames : List gameResult) (m : List (String × Int))
    (p : String) :
    mapGet (allGames.foldl (fun m og => (playersOf og).foldl mapIncr m) m) p
      = mapGet m p + (occurrences allGames p : Int) := by
  induction allGames generalizing m with
  | nil => simp [occurrences]
  | cons g t ih =>
    rw [List.foldl_cons, ih, mapGet_foldl_mapIncr]
    simp only [occurrences, List.map_cons, List.sum_cons, Nat.cast_add]
    omega

/-- The counter of a name in `playerOccurrences` is its number of occurrences. -/
theorem mapGet_playerOccurrences (allGames : List gameResult) (p : String) :
    mapGet (playerOccurrences allGames) p = (occurrences allGames p : Int) := by
  unfold playerOccurrences
  rw [mapGet_playerOccurrences_aux]
  simp [mapGet]

theorem foldl_append_filter (c : String → Bool) (l init : List String) :
    l.foldl (fun u p => if c p = true then u ++ [p] else u) init = init ++ l.filter c := by
  induction l generalizing init with
  | nil => simp
  | cons a t ih =>
    rw [List.foldl_cons, ih]
    by_cases h : c a = true
    · simp [h]
    · simp [h]

/-- The slice `uniquePlayers` holds the names of the target whose counter is 1. -/
theorem uniquePlayers_eq_filter (r : gameResult) (occ : List (String × Int)) :
    uniquePlayers r occ = (playersOf r).filter (fun p => decide (mapGet occ p = 1)) := by
  unfold uniquePlayers
  have := foldl_append_filter (fun p => decide (mapGet occ p = 1)) (playersOf r) []
  simp only [decide_eq_true_eq, List.nil_append] at this
  exact this

/-- Claim C10, as stated, fails. In the group made of game D alone, the name
Alice is among the players of D and occurs in the list of players of exactly
one game of the group, yet it is not in the unique players of the view of D,
because it sits at two seats of D. -/
theorem C10_counterexample :
    Renderable gameD [gameD] = some (viewOf gameD [gameD]) ∧
    "Alice" ∈ playersOf gameD ∧
    List.countP (fun g => decide ("Alice" ∈ playersOf g)) [gameD] = 1 ∧
    "Alice" ∉ (viewOf gameD [gameD]).UniquePlayers :=
  ⟨rfl, by decide, by decide, by decide⟩

/-- Claim C10, amended. In a returned view a name is among the unique players
iff it is a player of the target and the seats carrying it, counted over all
the games of the group, are exactly one. -/
theorem C10_unique_players (r : gameResult) (group : List gameResult) (out : renderableGame)
    (h : Renderable r group = some out) (p : String) :
    p ∈ out.UniquePlayers ↔ p ∈ playersOf r ∧ occurrences group p = 1 := by
  rw [Renderable_uniquePlayers r group out h, uniquePlayers_eq_filter, List.mem_filter,
    decide_eq_true_eq, mapGet_playerOccurrences]
  constructor
  · rintro ⟨h1, h2⟩; exact ⟨h1, by omega⟩
  · rintro ⟨h1, h2⟩; exact ⟨h1, by omega⟩

/-- Claim C10, amended, at the scenario of the specification: in the group of
games A, B and C the name Alice sits at one seat and the name Bob at two;
the view of A lists Alice as unique and does not list Bob. -/
theorem C10_unique_players_witness :
    Renderable gameA [gameA, gameB, gameC] = some (viewOf gameA [gameA, gameB, gameC]) ∧
    ("Alice" ∈ (viewOf gameA [gameA, gameB, gameC]).UniquePlayers ↔
      "Alice" ∈ playersOf gameA ∧ occurrences [gameA, gameB, gameC] "Alice" = 1) ∧
    occurrences [gameA, gameB, gameC] "Alice" = 1 ∧
    occurrences [gameA, gameB, gameC] "Bob" = 2 ∧
    (viewOf gameA [gameA, gameB, gameC]).UniquePlayers = ["Alice"] :=
  ⟨rfl, C10_unique_players gameA [gameA, gameB, gameC] (viewOf gameA [gameA, gameB, gameC]) rfl
    "Alice", by decide, by decide, by decide⟩

theorem goIndex_seatOf {α : Type} (a : Fin 4 → α) (x : Int) :
    goIndex a (x % 4) = some (a (seatOf x)) := by
  rw [← seatOf_val, goIndex_coe]

theorem seatOf_add_sub (j : Fin 4) (sp : Int) :
    seatOf (((seatOf ((j.val : Int) + sp)).val : Int) - sp) = j := by
  apply Fin.ext
  have h1 := seatOf_val ((j.val : Int) + sp)
  have h2 := seatOf_val (((seatOf ((j.val : Int) + sp)).val : Int) - sp)
  have := j.isLt
  omega

theorem teamSeats_perm (sp : Int) (hs : 0 ≤ sp ∧ sp < 4) :
    List.Perm [seatOf sp, seatOf (sp + 2), seatOf (sp + 1), seatOf (sp + 3)] [0, 1, 2, 3] := by
  obtain ⟨k, rfl⟩ : ∃ k : Fin 4, sp = (k.val : Int) :=
    ⟨⟨sp.toNat, by omega⟩, by simp only []; omega⟩
  revert k; decide

/-- Claim C11. In a returned view the starting player of the target is a
seat, the field StartingPlayer is the name at that seat, PlayingTeam holds the
names at seats `sp` and `(sp + 2) mod 4`, OpposingTeam holds the names at
seats `(sp + 1) mod 4` and `(sp + 3) mod 4`, and these four seats are a
permutation of 0, 1, 2, 3. -/
theorem C11_role_resolution (r : gameResult) (group : List gameResult) (out : renderableGame)
    (h : Renderable r group = some out) :
    (0 ≤ r.StartingPlayer ∧ r.StartingPlayer < 4) ∧
    out.StartingPlayer = r.Players (seatOf r.StartingPlayer) ∧
    out.PlayingTeam =
      ![r.Players (seatOf r.StartingPlayer), r.Players (seatOf (r.StartingPlayer + 2))] ∧
    out.OpposingTeam =
      ![r.Players (seatOf (r.StartingPlayer + 1)), r.Players (seatOf (r.StartingPlayer + 3))] ∧
    List.Perm
      [seatOf r.StartingPlayer, seatOf (r.StartingPlayer + 2),
        seatOf (r.StartingPlayer + 1), seatOf (r.StartingPlayer + 3)]
      [0, 1, 2, 3] := by
  obtain ⟨a, b, c, d, rs, ha, hb, hc, hd, _, hout⟩ := Renderable_some r group out h
  have hs : 0 ≤ r.StartingPlayer ∧ r.StartingPlayer < 4 := by
    have := goIndex_range _ _ _ ha; omega
  have hidx : ∀ c : Int, 0 ≤ c ∧ c < 4 →
      goRem (wrap64 (r.StartingPlayer + c)) 4 = (r.StartingPlayer + c) % 4 := by
    intro c hc
    rw [wrap64_of_small _ (by omega) (by omega), goRem_of_nonneg _ (by omega)]
  have ha' : a = r.Players (seatOf r.StartingPlayer) := by
    obtain ⟨k, hk, hv⟩ := (goIndex_eq_some _ _ _).1 ha
    have hks : k = seatOf r.StartingPlayer :=
      Fin.ext (by have := seatOf_val r.StartingPlayer; omega)
    rw [← hv, hks]
  rw [hidx 2 (by omega), goIndex_seatOf, Option.some.injEq] at hb
  rw [hidx 1 (by omega), goIndex_seatOf, Option.some.injEq] at hc
  rw [hidx 3 (by omega), goIndex_seatOf, Option.some.injEq] at hd
  subst hout
  refine ⟨hs, ha', ?_, ?_, teamSeats_perm _ hs⟩
  · simp only [ha', hb]
  · simp only [hc, hd]

/-- Claim C11 at game A in the group of A and B. -/
theorem C11_role_resolution_witness :
    Renderable gameA [gameA, gameB] = some (viewOf gameA [gameA, gameB]) ∧
    (viewOf gameA [gameA, gameB]).StartingPlayer = "Alice" ∧
    (viewOf gameA [gameA, gameB]).PlayingTeam = ![ "Alice", "Carol"] ∧
    (viewOf gameA [gameA, gameB]).OpposingTeam = ![ "Bob", "Dave"] ∧
    ((0 ≤ gameA.StartingPlayer ∧ gameA.StartingPlayer < 4) ∧
    (viewOf gameA [gameA, gameB]).StartingPlayer = gameA.Players (seatOf gameA.StartingPlayer) ∧
    (viewOf gameA [gameA, gameB]).PlayingTeam =
      ![gameA.Players (seatOf gameA.StartingPlayer),
        gameA.Players (seatOf (gameA.StartingPlayer + 2))] ∧
    (viewOf gameA [gameA, gameB]).OpposingTeam =
      ![gameA.Players (seatOf (gameA.StartingPlayer + 1)),
        gameA.Players (seatOf (gameA.StartingPlayer + 3))] ∧
    List.Perm
      [seatOf gameA.StartingPlayer, seatOf (gameA.StartingPlayer + 2),
        seatOf (gameA.StartingPlayer + 1), seatOf (gameA.StartingPlayer + 3)]
      [0, 1, 2, 3]) :=
  ⟨rfl, by decide, by decide, by decide,
    C11_role_resolution gameA [gameA, gameB] (viewOf gameA [gameA, gameB]) rfl⟩

/-- Claim C13. For a well-formed target and a group of well-formed games, of
any size, no checked index of the call is out of range: the call returns a
view. -/
theorem C13_total_on_well_formed (r : gameResult) (group : List gameResult)
    (hr : wellFormed r) (hall : ∀ g ∈ group, wellFormed g) :
    ∃ out, Renderable r group = some out := by
  obtain ⟨out, hout⟩ := Renderable_succeeds r group hr hall
  exact ⟨out, hout⟩

/-- Claim C13 at game A, with the empty group and with the group of A and B. -/
theorem C13_total_on_well_formed_witness :
    (∃ out, Renderable gameA [] = some out) ∧
    (∃ out, Renderable gameA [gameA, gameB] = some out) :=
  ⟨C13_total_on_well_formed gameA [] (by decide) (by decide),
    C13_total_on_well_formed gameA [gameA, gameB] (by decide) (by decide)⟩

/-- Claim C15, as stated, fails. Game S has the least 64-bit integer as score
of the playing team and 20 as its glory; the difference wraps, so the net
score of the view is not the difference of score and glory, and net score
plus glory is not the score. -/
theorem C15_counterexample :
    Renderable gameS [gameS] = some (viewOf gameS [gameS]) ∧
    (viewOf gameS [gameS]).PlayingTeamScoreExclGlory = 9223372036854775788 ∧
    (viewOf gameS [gameS]).PlayingTeamScoreExclGlory ≠ gameS.Scores 0 - gameS.Glory 0 ∧
    (viewOf gameS [gameS]).PlayingTeamScoreExclGlory + (viewOf gameS [gameS]).PlayingTeamGlory
      ≠ (viewOf gameS [gameS]).PlayingTeamScore :=
  ⟨rfl, by decide, by decide, by decide⟩

/-- Claim C15, amended. In a returned view scores and glory are copied from
the target and each net score is the difference of score and glory reduced to
the signed 64-bit range; when that difference lies in the range, the net score
is the difference itself and net score plus glory is the score. -/
theorem C15_net_scores (r : gameResult) (group : List gameResult) (out : renderableGame)
    (h : Renderable r group = some out) :
    (out.PlayingTeamScore = r.Scores 0 ∧ out.OpposingTeamScore = r.Scores 1 ∧
      out.PlayingTeamGlory = r.Glory 0 ∧ out.OpposingTeamGlory = r.Glory 1) ∧
    (out.PlayingTeamScoreExclGlory = wrap64 (r.Scores 0 - r.Glory 0) ∧
      out.OpposingTeamScoreExclGlory = wrap64 (r.Scores 1 - r.Glory 1)) ∧
    ((-9223372036854775808 ≤ r.Scores 0 - r.Glory 0 ∧
        r.Scores 0 - r.Glory 0 < 9223372036854775808) →
      out.PlayingTeamScoreExclGlory = r.Scores 0 - r.Glory 0 ∧
      out.PlayingTeamScoreExclGlory + out.PlayingTeamGlory = out.PlayingTeamScore) ∧
    ((-9223372036854775808 ≤ r.Scores 1 - r.Glory 1 ∧
        r.Scores 1 - r.Glory 1 < 9223372036854775808) →
      out.OpposingTeamScoreExclGlory = r.Scores 1 - r.Glory 1 ∧
      out.OpposingTeamScoreExclGlory + out.OpposingTeamGlory = out.OpposingTeamScore) := by
  obtain ⟨a, b, c, d, rs, _, _, _, _, _, hout⟩ := Renderable_some r group out h
  subst hout
  refine ⟨⟨rfl, rfl, rfl, rfl⟩, ⟨rfl, rfl⟩, fun hr => ?_, fun hr => ?_⟩
  · have e := wrap64_of_small _ hr.1 hr.2
    refine ⟨e, ?_⟩
    show wrap64 (r.Scores 0 - r.Glory 0) + r.Glory 0 = r.Scores 0
    rw [e]; omega
  · have e := wrap64_of_small _ hr.1 hr.2
    refine ⟨e, ?_⟩
    show wrap64 (r.Scores 1 - r.Glory 1) + r.Glory 1 = r.Scores 1
    rw [e]; omega

/-- Claim C15, amended, at game A in the group of A and B: scores 100 and 62,
glory 20 and 0, net scores 80 and 62. -/
theorem C15_net_scores_witness :
    Renderable gameA [gameA, gameB] = some (viewOf gameA [gameA, gameB]) ∧
    (viewOf gameA [gameA, gameB]).PlayingTeamScoreExclGlory = 80 ∧
    (viewOf gameA [gameA, gameB]).OpposingTeamScoreExclGlory = 62 ∧
    (-9223372036854775808 ≤ gameA.Scores 0 - gameA.Glory 0 ∧
      gameA.Scores 0 - gameA.Glory 0 < 9223372036854775808) ∧
    ((viewOf gameA [gameA, gameB]).PlayingTeamScoreExclGlory = gameA.Scores 0 - gameA.Glory 0 ∧
      (viewOf gameA [gameA, gameB]).PlayingTeamScoreExclGlory
        + (viewOf gameA [gameA, gameB]).PlayingTeamGlory
        = (viewOf gameA [gameA, gameB]).PlayingTeamScore) :=
  ⟨rfl, by decide, by decide, by decide,
    (C15_net_scores gameA [gameA, gameB] (viewOf gameA [gameA, gameB]) rfl).2.2.1 (by decide)⟩

/-- Claim C16 at its failing input. Games P and Q are well formed; at round 0
and loop seat 0 the compared cards are the card of P with value AB and suit C
and the card of Q with value A and suit BC, which differ as pairs; the call
returns a view whose flag for that slot is false. -/
theorem C16_failing_input :
    wellFormed gameP ∧ wellFormed gameQ ∧
    Renderable gameP [gameP, gameQ] = some (viewOf gameP [gameP, gameQ]) ∧
    ¬ sameCard
      (gameP.Rounds 0 (seatOf (0 + roundLeader gameP 0 - roundLeader gameP 0)))
      (gameQ.Rounds 0 (seatOf (0 + roundLeader gameP 0 - roundLeader gameQ 0))) ∧
    (((viewOf gameP [gameP, gameQ]).Rounds 0).Cards
      (seatOf (0 + roundLeader gameP 0))).Different = false :=
  ⟨by decide, by decide, rfl, by decide, by decide⟩

/-- Claim C19. In a returned view the card stored at index `j` of round `i`
of the target is carried by the output card at index
`(j + roundLeader r i) mod 4`; that map of indices is a bijection of the four
seats, so the output card at index `k` is the card stored at index
`(k - roundLeader r i) mod 4`: the displayed cards are the stored cards,
rotated by the leader of the round. -/
theorem C19_display_is_rotation (r : gameResult) (group : List gameResult)
    (out : renderableGame) (h : Renderable r group = some out) (i : Fin 8) :
    (∀ j : Fin 4,
      ((out.Rounds i).Cards (seatOf ((j.val : Int) + roundLeader r i))).Value = r.Rounds i j 0 ∧
      ((out.Rounds i).Cards (seatOf ((j.val : Int) + roundLeader r i))).Suit = r.Rounds i j 1) ∧
    Function.Bijective (fun j : Fin 4 => seatOf ((j.val : Int) + roundLeader r i)) ∧
    (∀ k : Fin 4,
      ((out.Rounds i).Cards k).Value = r.Rounds i (seatOf ((k.val : Int) - roundLeader r i)) 0 ∧
      ((out.Rounds i).Cards k).Suit = r.Rounds i (seatOf ((k.val : Int) - roundLeader r i)) 1) := by
  refine ⟨fun j => ?_, ?_, fun k => ?_⟩
  · obtain ⟨_, _, _, hcards⟩ := renderRound_some r group i _ (Renderable_round r group out h i)
    obtain ⟨ch, _, hcard⟩ := hcards j
    rw [hcard]
    exact ⟨rfl, rfl⟩
  · rw [Function.bijective_iff_has_inverse]
    exact ⟨fun k => seatOf ((k.val : Int) - roundLeader r i),
      fun j => seatOf_add_sub j _, fun k => seatOf_sub_add k _⟩
  · obtain ⟨ch, _, hcard⟩ := Renderable_card r group out h i k
    rw [hcard]
    exact ⟨rfl, rfl⟩

/-- Claim C19 at game A in the group of A and B, round 1, led by seat 2: the
displayed values are the stored values jack, seven, ace, eight rotated by two
seats. -/
theorem C19_display_is_rotation_witness :
    Renderable gameA [gameA, gameB] = some (viewOf gameA [gameA, gameB]) ∧
    seatIndices.map (fun k => (((viewOf gameA [gameA, gameB]).Rounds 1).Cards k).Value)
      = ["ACE", "EIGHT", "JACK", "SEVEN"] ∧
    Function.Bijective (fun j : Fin 4 => seatOf ((j.val : Int) + roundLeader gameA 1)) :=
  ⟨rfl, by decide,
    (C19_display_is_rotation gameA [gameA, gameB] (viewOf gameA [gameA, gameB]) rfl 1).2.1⟩

theorem choices_fold_some (allGames : List gameResult) (i : Fin 8) (j : Fin 4) (sp : Int)
    (m ch : List (String × Int))
    (h : allGames.foldlM (fun m og => do
      let k ← choiceKey og i j sp
      some (mapIncr m k)) m = some ch) :
    ∀ og ∈ allGames, ∃ k, choiceKey og i j sp = some k := by
  induction allGames generalizing m with
  | nil => intro og hog; exact absurd hog (List.not_mem_nil og)
  | cons g t ih =>
    simp only [List.foldlM_cons, Option.bind_eq_bind, Option.bind_eq_some] at h
    obtain ⟨m1, ⟨k, hk, _⟩, hrest⟩ := h
    intro og hog
    rcases List.mem_cons.1 hog with rfl | ht
    · exact ⟨k, hk⟩
    · exact ih m1 hrest og ht

theorem choiceKey_some_range (og : gameResult) (i : Fin 8) (j : Fin 4) (sp : Int) (k : String)
    (h : choiceKey og i j sp = some k) :
    0 ≤ alignIndex (j.val : Int) sp (roundLeader og i) ∧
    alignIndex (j.val : Int) sp (roundLeader og i) < 4 := by
  simp only [choiceKey, Option.bind_eq_bind, Option.bind_eq_some] at h
  obtain ⟨c, hc, _⟩ := h
  have := goIndex_range _ _ _ hc
  omega

theorem goRem_neg (a : Int) (ha : a < 0) (h : 0 ≤ goRem a 4) : a % 4 = 0 := by
  obtain ⟨n, rfl⟩ := Int.eq_negSucc_of_lt_zero ha
  have e : goRem (Int.negSucc n) 4 = -(((n + 1) % 4 : Nat) : Int) := rfl
  rw [e] at h
  rw [Int.negSucc_eq]
  omega

/-- In a returned view, the leaders of the target are seats and the index
read in every game of the group, for every loop seat, is not negative. -/
theorem Renderable_some_indices (r : gameResult) (allGames : List gameResult)
    (out : renderableGame) (h : Renderable r allGames = some out) (i : Fin 8) :
    (0 ≤ roundLeader r i ∧ roundLeader r i < 4) ∧
    ∀ og ∈ allGames, ∀ j : Fin 4,
      0 ≤ alignIndex (j.val : Int) (roundLeader r i) (roundLeader og i) := by
  obtain ⟨hs, _, _, hcards⟩ := renderRound_some r allGames i _ (Renderable_round r allGames out h i)
  refine ⟨hs, fun og hog j => ?_⟩
  obtain ⟨ch, hch, _⟩ := hcards j
  obtain ⟨k, hk⟩ := choices_fold_some allGames i j _ [] ch hch og hog
  exact (choiceKey_some_range og i j _ k hk).1

/-- A leader of another game that exceeds the leader of the target by more
than 4 makes the call panic. -/
theorem Renderable_none_of_leader (r : gameResult) (allGames : List gameResult)
    (og : gameResult) (hog : og ∈ allGames) (i : Fin 8)
    (hlt : roundLeader r i + 4 < roundLeader og i)
    (hmax : roundLeader og i < 9223372036854775808) :
    Renderable r allGames = none := by
  rw [Option.eq_none_iff_forall_not_mem]
  intro out hout
  obtain ⟨hs, hidx⟩ := Renderable_some_indices r allGames out hout i
  have h0 := hidx og hog 0
  have h1 := hidx og hog 1
  have w0 : wrap64 (wrap64 (wrap64 (((0 : Fin 4).val : Int) + roundLeader r i)
      - roundLeader og i) + 4) = roundLeader r i - roundLeader og i + 4 := by
    have e0 : (((0 : Fin 4).val : Int)) = 0 := rfl
    rw [e0, wrap64_of_small (0 + roundLeader r i) (by omega) (by omega),
      wrap64_of_small (0 + roundLeader r i - roundLeader og i) (by omega) (by omega),
      wrap64_of_small (0 + roundLeader r i - roundLeader og i + 4) (by omega) (by omega)]
    omega
  have w1 : wrap64 (wrap64 (wrap64 (((1 : Fin 4).val : Int) + roundLeader r i)
      - roundLeader og i) + 4) = roundLeader r i - roundLeader og i + 5 := by
    have e1 : (((1 : Fin 4).val : Int)) = 1 := rfl
    rw [e1, wrap64_of_small (1 + roundLeader r i) (by omega) (by omega),
      wrap64_of_small (1 + roundLeader r i - roundLeader og i) (by omega) (by omega),
      wrap64_of_small (1 + roundLeader r i - roundLeader og i + 4) (by omega) (by omega)]
    omega
  unfold alignIndex at h0 h1
  rw [w0] at h0
  rw [w1] at h1
  have m0 := goRem_neg _ (by omega) h0
  by_cases hz : roundLeader r i - roundLeader og i + 5 < 0
  · have m1 := goRem_neg _ hz h1
    omega
  · omega

/-- Claim C12, as stated, fails. Game E has starting player 4 and game F has
9 as winner of the last round, so neither is well formed; yet the call with
target A and the group of A and E returns a view, with the flags of round 0 it
has when the starting player of E is 0, and the call with target F and the
group of F and B returns a view. -/
theorem C12_counterexample :
    ¬ wellFormed gameE ∧
    Renderable gameA [gameA, gameE] = some (viewOf gameA [gameA, gameE]) ∧
    seatIndices.map (fun s => (((viewOf gameA [gameA, gameE]).Rounds 0).Cards s).Different)
      = [false, true, false, false] ∧
    ¬ wellFormed gameF ∧
    Renderable gameF [gameF, gameB] = some (viewOf gameF [gameF, gameB]) :=
  ⟨by decide, rfl, by decide, by decide, rfl⟩

/-- Claim C12, amended. The call panics when the starting player of the
target is not a seat, when one of the first seven round winners of the target
is not a seat, and when a game of the group has, in some round, a leader
greater than the leader of the target plus 4. -/
theorem C12_panics_on_bad_leader (r : gameResult) (group : List gameResult) :
    (¬ (0 ≤ r.StartingPlayer ∧ r.StartingPlayer < 4) → Renderable r group = none) ∧
    (∀ i : Fin 7, ¬ (0 ≤ r.RoundWinners i.castSucc ∧ r.RoundWinners i.castSucc < 4) →
      Renderable r group = none) ∧
    (∀ og ∈ group, ∀ i : Fin 8,
      roundLeader r i + 4 < roundLeader og i → roundLeader og i < 9223372036854775808 →
      Renderable r group = none) := by
  refine ⟨fun hbad => ?_, fun i hbad => ?_, fun og hog i hlt hmax =>
    Renderable_none_of_leader r group og hog i hlt hmax⟩
  · rw [Option.eq_none_iff_forall_not_mem]
    intro out hout
    have := (Renderable_some_indices r group out hout 0).1
    rw [roundLeader_zero] at this
    exact hbad this
  · rw [Option.eq_none_iff_forall_not_mem]
    intro out hout
    have := (Renderable_some_indices r group out hout i.succ).1
    rw [roundLeader_succ] at this
    exact hbad this

/-- Claim C12, amended, at game H, whose starting player is 4, as target, and
at target A with game G, whose starting player is 5, in the group. -/
theorem C12_panics_on_bad_leader_witness :
    Renderable gameH [gameH, gameB] = none ∧
    Renderable gameA [gameA, gameG] = none :=
  ⟨(C12_panics_on_bad_leader gameH [gameH, gameB]).1 (by decide),
    (C12_panics_on_bad_leader gameA [gameA, gameG]).2.2 gameG
      (List.mem_cons_of_mem _ (List.mem_cons_self _ _)) 0 (by decide) (by decide)⟩

theorem renderLoop_calls (games : List gameResult) (rest : List gameResult) :
    (∀ c ∈ (renderLoop games rest).1, c.1 ∈ rest ∧ c.2 = games) ∧
    (∀ views, (renderLoop games rest).2 = some views →
      (renderLoop games rest).1 = rest.map (fun g => (g, games)) ∧
      List.Forall₂ (fun g v => Renderable g games = some v) rest views) := by
  induction rest with
  | nil =>
    refine ⟨fun c hc => ?_, fun views hv => ?_⟩
    · simp [renderLoop] at hc
    · simp only [renderLoop, Option.some.injEq] at hv
      subst hv
      exact ⟨rfl, List.Forall₂.nil⟩
  | cons g t ih =>
    cases hg : Renderable g games with
    | none =>
      refine ⟨fun c hc => ?_, fun views hv => ?_⟩
      · simp only [renderLoop, hg, List.mem_singleton] at hc
        subst hc
        exact ⟨List.mem_cons_self _ _, rfl⟩
      · simp [renderLoop, hg] at hv
    | some v =>
      refine ⟨fun c hc => ?_, fun views hv => ?_⟩
      · simp only [renderLoop, hg, List.mem_cons] at hc
        rcases hc with rfl | hc
        · exact ⟨List.mem_cons_self _ _, rfl⟩
        · exact ⟨List.mem_cons_of_mem _ (ih.1 c hc).1, (ih.1 c hc).2⟩
      · simp only [renderLoop, hg, Option.map_eq_some'] at hv
        obtain ⟨vs, hvs, rfl⟩ := hv
        obtain ⟨h1, h2⟩ := ih.2 vs hvs
        refine ⟨?_, List.Forall₂.cons hg h2⟩
        simp only [renderLoop, hg, h1, List.map_cons]

/-- Claim C14. With no game the handler answers NotFound with one message and
with one game it answers NotFound with another message, in both cases without
calling Renderable. Every call of Renderable happens with at least two games,
its receiver is a game of the list and its argument is the whole list; and
when the handler renders, the calls are exactly one per game, in order, and
the rendered views are their results. -/
theorem C14_terminal_condition (games : List gameResult) (templateParsed : Bool) :
    (games.length = 0 →
      (gamePage games templateParsed).calls = [] ∧
      (gamePage games templateParsed).response
        = some (HttpResponse.NotFound "No games found with this seed")) ∧
    (games.length = 1 →
      (gamePage games templateParsed).calls = [] ∧
      (gamePage games templateParsed).response
        = some (HttpResponse.NotFound
            "Only 1 game found with this seed, not enough to compare")) ∧
    "No games found with this seed"
      ≠ "Only 1 game found with this seed, not enough to compare" ∧
    (∀ c ∈ (gamePage games templateParsed).calls,
      2 ≤ games.length ∧ c.1 ∈ games ∧ c.2 = games) ∧
    (∀ views, (gamePage games templateParsed).response
        = some (HttpResponse.RenderTemplate views) →
      2 ≤ games.length ∧
      (gamePage games templateParsed).calls = games.map (fun g => (g, games)) ∧
      List.Forall₂ (fun g v => Renderable g games = some v) games views) := by
  refine ⟨fun h0 => ?_, fun h1 => ?_, by decide, ?_, ?_⟩
  · simp [gamePage, h0]
  · simp [gamePage, h1]
  · intro c hc
    rcases hlen : games.length with _ | _ | n
    · simp [gamePage, hlen] at hc
    · simp [gamePage, hlen] at hc
    · cases templateParsed with
      | false => simp [gamePage, hlen] at hc
      | true =>
        simp only [gamePage, hlen, if_true] at hc
        exact ⟨by omega, (renderLoop_calls games games).1 c hc⟩
  · intro views hv
    rcases hlen : games.length with _ | _ | n
    · simp [gamePage, hlen] at hv
    · simp [gamePage, hlen] at hv
    · cases templateParsed with
      | false => simp [gamePage, hlen] at hv
      | true =>
        simp only [gamePage, hlen, if_true, Option.map_eq_some',
          HttpResponse.RenderTemplate.injEq] at hv ⊢
        obtain ⟨vs, hvs, rfl⟩ := hv
        exact ⟨by omega, (renderLoop_calls games games).2 vs hvs⟩

/-- Claim C14 at the lists of no game, of game A alone, and of games A and B. -/
theorem C14_terminal_condition_witness :
    (gamePage [] true).response
      = some (HttpResponse.NotFound "No games found with this seed") ∧
    (gamePage [gameA] true).response
      = some (HttpResponse.NotFound
          "Only 1 game found with this seed, not enough to compare") ∧
    (gamePage [gameA] true).calls = [] ∧
    (gamePage [gameA, gameB] true).calls = [(gameA, [gameA, gameB]), (gameB, [gameA, gameB])] ∧
    (gamePage [gameA, gameB] true).response = some (HttpResponse.RenderTemplate
      [viewOf gameA [gameA, gameB], viewOf gameB [gameA, gameB]]) :=
  ⟨((C14_terminal_condition [] true).1 rfl).2,
    ((C14_terminal_condition [gameA] true).2.1 rfl).2,
    ((C14_terminal_condition [gameA] true).2.1 rfl).1, rfl, rfl⟩

theorem keys_card_eq_one (ks : List String) :
    ks.toFinset.card = 1 ↔ ks ≠ [] ∧ ∀ a ∈ ks, ∀ b ∈ ks, a = b := by
  rw [← foldl_mapIncr_length, foldl_mapIncr_length_eq_one]

theorem group_keys_card_eq_one (group : List gameResult) (key : gameResult → String) :
    (group.map key).toFinset.card = 1 ↔
      (group ≠ [] ∧ ∀ a ∈ group, ∀ b ∈ group, key a = key b) := by
  rw [keys_card_eq_one]
  constructor
  · rintro ⟨hne, hall⟩
    refine ⟨fun hnil => hne (by rw [hnil]; rfl), fun a ha b hb => ?_⟩
    exact hall _ (List.mem_map_of_mem key ha) _ (List.mem_map_of_mem key hb)
  · rintro ⟨hne, hall⟩
    refine ⟨fun hnil => hne (List.map_eq_nil_iff.1 hnil), ?_⟩
    intro x hx y hy
    obtain ⟨a, ha, rfl⟩ := List.mem_map.1 hx
    obtain ⟨b, hb, rfl⟩ := List.mem_map.1 hy
    exact hall a ha b hb

/-- Claim C17. For a group of well-formed games and two well-formed targets
both calls return a view; at every round `i` and output index `k` the two
views carry the same flag, and the flag is true iff the number of distinct
keys among the cards at index `(k - roundLeader g i) mod 4` of round `i`,
over the games `g` of the group, is not 1. -/
theorem C17_flag_independent_of_target (group : List gameResult) (r1 r2 : gameResult)
    (hall : ∀ g ∈ group, wellFormed g) (h1 : wellFormed r1) (h2 : wellFormed r2) :
    ∃ out1 out2, Renderable r1 group = some out1 ∧ Renderable r2 group = some out2 ∧
      ∀ (i : Fin 8) (k : Fin 4),
        ((out1.Rounds i).Cards k).Different = ((out2.Rounds i).Cards k).Different ∧
        (((out1.Rounds i).Cards k).Different = true ↔
          (group.map (fun g =>
            cardKey (g.Rounds i (seatOf ((k.val : Int) - roundLeader g i))))).toFinset.card
            ≠ 1) := by
  obtain ⟨out1, ho1⟩ := Renderable_succeeds r1 group h1 hall
  obtain ⟨out2, ho2⟩ := Renderable_succeeds r2 group h2 hall
  refine ⟨out1, out2, ho1, ho2, fun i k => ?_⟩
  have hl : ∀ g ∈ group, 0 ≤ roundLeader g i ∧ roundLeader g i < 4 :=
    fun g hg => roundLeader_range g (hall g hg) i
  have e1 := Renderable_different r1 group i hl out1 ho1 k
  have e2 := Renderable_different r2 group i hl out2 ho2 k
  refine ⟨by rw [Bool.eq_iff_iff, e1, e2], ?_⟩
  rw [e1]
  exact not_congr (group_keys_card_eq_one group _).symm

/-- Claim C17 at the group of games A and B with targets A and C. -/
theorem C17_flag_independent_of_target_witness :
    ∃ out1 out2, Renderable gameA [gameA, gameB] = some out1 ∧
      Renderable gameC [gameA, gameB] = some out2 ∧
      ∀ (i : Fin 8) (k : Fin 4),
        ((out1.Rounds i).Cards k).Different = ((out2.Rounds i).Cards k).Different ∧
        (((out1.Rounds i).Cards k).Different = true ↔
          ([gameA, gameB].map (fun g =>
            cardKey (g.Rounds i (seatOf ((k.val : Int) - roundLeader g i))))).toFinset.card
            ≠ 1) :=
  C17_flag_independent_of_target [gameA, gameB] gameA gameC (by decide) (by decide) (by decide)

/-- Claim C18. For a group of well-formed games and a target of the group the
call returns a view, and in it the flag of round `i` at output index `k` is
false iff every game `g` of the group has, at index
`(k - roundLeader g i) mod 4` of round `i`, a card whose key is the key of
the card displayed at index `k`. -/
theorem C18_flag_annotates_displayed_card (group : List gameResult) (r : gameResult)
    (hall : ∀ g ∈ group, wellFormed g) (hr : r ∈ group) :
    ∃ out, Renderable r group = some out ∧
      ∀ (i : Fin 8) (k : Fin 4),
        ((out.Rounds i).Cards k).Different = false ↔
          ∀ g ∈ group, cardKey (g.Rounds i (seatOf ((k.val : Int) - roundLeader g i))) =
            ((out.Rounds i).Cards k).Value ++ ((out.Rounds i).Cards k).Suit := by
  obtain ⟨out, hout⟩ := Renderable_succeeds r group (hall r hr) hall
  refine ⟨out, hout, fun i k => ?_⟩
  have hd := Renderable_different r group i
    (fun g hg => roundLeader_range g (hall g hg) i) out hout k
  obtain ⟨ch, _, hcard⟩ := Renderable_card r group out hout i k
  have hshown : ((out.Rounds i).Cards k).Value ++ ((out.Rounds i).Cards k).Suit =
      cardKey (r.Rounds i (seatOf ((k.val : Int) - roundLeader r i))) := by
    rw [hcard]; rfl
  rw [hshown, ← Bool.not_eq_true, hd, not_not]
  constructor
  · rintro ⟨_, hsame⟩ g hg
    exact hsame g hg r hr
  · intro hsame
    refine ⟨List.ne_nil_of_mem hr, fun a ha b hb => ?_⟩
    rw [hsame a ha, hsame b hb]

/-- Claim C18 at the group of games A and B with target A. -/
theorem C18_flag_annotates_displayed_card_witness :
    ∃ out, Renderable gameA [gameA, gameB] = some out ∧
      ∀ (i : Fin 8) (k : Fin 4),
        ((out.Rounds i).Cards k).Different = false ↔
          ∀ g ∈ [gameA, gameB],
            cardKey (g.Rounds i (seatOf ((k.val : Int) - roundLeader g i))) =
            ((out.Rounds i).Cards k).Value ++ ((out.Rounds i).Cards k).Suit :=
  C18_flag_annotates_displayed_card [gameA, gameB] gameA (by decide) (List.mem_cons_self _ _)

theorem occurrences_perm (l1 l2 : List gameResult) (hp : l1.Perm l2) (p : String) :
    occurrences l1 p = occurrences l2 p := by
  unfold occurrences
  exact (hp.map _).sum_eq

theorem uniquePlayers_perm (r : gameResult) (l1 l2 : List gameResult) (hp : l1.Perm l2) :
    uniquePlayers r (playerOccurrences l1) = uniquePlayers r (playerOccurrences l2) := by
  rw [uniquePlayers_eq_filter, uniquePlayers_eq_filter]
  congr 1
  funext p
  rw [mapGet_playerOccurrences, mapGet_playerOccurrences, occurrences_perm l1 l2 hp]

theorem choices_fold_none (allGames : List gameResult) (i : Fin 8) (j : Fin 4) (sp : Int)
    (og : gameResult) (hog : og ∈ allGames) (hk : choiceKey og i j sp = none)
    (m : List (String × Int)) :
    allGames.foldlM (fun m og => do
      let k ← choiceKey og i j sp
      some (mapIncr m k)) m = none := by
  induction allGames generalizing m with
  | nil => exact absurd hog (List.not_mem_nil og)
  | cons g t ih =>
    simp only [List.foldlM_cons, Option.bind_eq_bind]
    rcases List.mem_cons.1 hog with rfl | ht
    · rw [hk]; rfl
    · cases hg : choiceKey g i j sp with
      | none => rfl
      | some k =>
        simp only [Option.some_bind]
        exact ih ht _

theorem choices_length_perm (l1 l2 : List gameResult) (hp : l1.Perm l2)
    (i : Fin 8) (j : Fin 4) (sp : Int) :
    (choices l1 i j sp).map List.length = (choices l2 i j sp).map List.length := by
  by_cases hall : ∀ og ∈ l1, ∃ k, choiceKey og i j sp = some k
  · have hkey1 : ∀ og ∈ l1,
        choiceKey og i j sp = some ((choiceKey og i j sp).getD "") := by
      intro og hog
      obtain ⟨k, hk⟩ := hall og hog
      rw [hk]; rfl
    have hkey2 : ∀ og ∈ l2,
        choiceKey og i j sp = some ((choiceKey og i j sp).getD "") :=
      fun og hog => hkey1 og (hp.mem_iff.2 hog)
    unfold choices
    rw [choices_of_keys l1 i j sp _ hkey1, choices_of_keys l2 i j sp _ hkey2]
    simp only [Option.map_some', foldl_mapIncr_length, Option.some.injEq]
    rw [List.toFinset_eq_of_perm _ _ (hp.map _)]
  · push_neg at hall
    obtain ⟨og, hog, hnone⟩ := hall
    have hk : choiceKey og i j sp = none := by
      cases h : choiceKey og i j sp with
      | none => rfl
      | some k => exact absurd h (hnone k)
    unfold choices
    rw [choices_fold_none l1 i j sp og hog hk, choices_fold_none l2 i j sp og (hp.mem_iff.1 hog) hk]

theorem cardStep_eq (r : gameResult) (allGames : List gameResult) (i : Fin 8) (sp : Int)
    (cards : Fin 4 → playedCard) (j : Fin 4) :
    cardStep r allGames i sp cards j =
      ((choices allGames i j sp).map List.length).bind (fun n =>
        goStore cards (displayIndex j.val sp)
          { Value := r.Rounds i j 0
            Suit := r.Rounds i j 1
            Winner := decide (r.RoundWinners i = displayIndex j.val sp)
            Different := decide (n ≠ 1) }) := by
  unfold cardStep
  cases choices allGames i j sp with
  | none => rfl
  | some ch => rfl

theorem renderRound_perm (r : gameResult) (l1 l2 : List gameResult) (hp : l1.Perm l2)
    (i : Fin 8) : renderRound r l1 i = renderRound r l2 i := by
  have hstep : cardStep r l1 i (roundLeader r i) = cardStep r l2 i (roundLeader r i) := by
    funext cards j
    rw [cardStep_eq, cardStep_eq, choices_length_perm l1 l2 hp]
  unfold renderRound
  simp only [hstep]

/-- Claim C20. For two lists of games that are permutations of each other the
two calls have the same outcome: both panic, or both return the same view. -/
theorem C20_group_is_unordered (r : gameResult) (list1 list2 : List gameResult)
    (hp : list1.Perm list2) : Renderable r list1 = Renderable r list2 := by
  have hround : roundStep r list1 = roundStep r list2 := by
    funext rounds i
    unfold roundStep
    rw [renderRound_perm r list1 list2 hp]
  unfold Renderable
  simp only [hround, uniquePlayers_perm r list1 list2 hp]

/-- Claim C20 at target A with the group of A and B in both orders: the calls
return the same view. -/
theorem C20_group_is_unordered_witness :
    Renderable gameA [gameA, gameB] = Renderable gameA [gameB, gameA] ∧
    Renderable gameA [gameA, gameB] = some (viewOf gameA [gameA, gameB]) :=
  ⟨C20_group_is_unordered gameA [gameA, gameB] [gameB, gameA] (List.Perm.swap _ _ _), rfl⟩

end Klaverjassen
